import Mathlib

/-!
Verification of the CSS-variable flattening engine from `scripts/svg-utils.mjs`
(Pretty-mermaid-skills).

The JavaScript source is shallowly embedded: strings become `List Char`
(wrapped in `String` at the interface), JS objects/Maps become insertion-order
association lists with overwrite-on-set (`jsSet`), JS numbers used in color
mixing become `ℚ` (exact rational arithmetic; IEEE-754 rounding of the doubles
is not modeled), and the regular-expression passes of the source are embedded
as explicit character scanners that reproduce the regex engine's
leftmost-match, alternation-with-backtracking, lazy/greedy and lookahead
behavior of each concrete pattern in the source.  JS `trim`/`\s` whitespace is
modeled as ASCII whitespace (`Char.isWhitespace`).
-/

namespace SvgUtils

/-! ### Basic string utilities -/

/-- ASCII whitespace, modeling the JS `\s` class and `String.prototype.trim`. -/
def isWs (c : Char) : Bool := c.isWhitespace

/-- The single-quote character (written by code to keep source text plain). -/
def sq : Char := Char.ofNat 39

/-- `trimL s` removes leading and trailing whitespace, as JS `trim()`. -/
def trimL (s : List Char) : List Char :=
  ((s.dropWhile isWs).reverse.dropWhile isWs).reverse

/-- Drop the literal `lit` from the front of `s`; `none` when `s` does not
start with `lit`. -/
def dropLit : List Char → List Char → Option (List Char)
  | [], s => some s
  | _ :: _, [] => none
  | c :: cs, x :: xs => if x = c then dropLit cs xs else none

/-- Case-insensitive `dropLit` (for regexes carrying the `i` flag). -/
def dropLitCI : List Char → List Char → Option (List Char)
  | [], s => some s
  | _ :: _, [] => none
  | c :: cs, x :: xs => if x.toLower = c.toLower then dropLitCI cs xs else none

/-! ### Color model (`hexToRgb`, `rgbToHex`, `mixColors`) -/

/-- RGB triple as produced by `hexToRgb` (each channel in `[0, 255]`). -/
structure Rgb where
  r : Nat
  g : Nat
  b : Nat
deriving DecidableEq, Repr

/-- The `[0-9a-fA-F]` character class (by ASCII code: `0`-`9`, `a`-`f`, `A`-`F`). -/
def isHexDigitChar (c : Char) : Bool :=
  (48 ≤ c.toNat && c.toNat ≤ 57) ||
  (97 ≤ c.toNat && c.toNat ≤ 102) ||
  (65 ≤ c.toNat && c.toNat ≤ 70)

/-- The `[0-9a-f]` character class (lowercase hex digits, by ASCII code). -/
def isLowerHexDigit (c : Char) : Bool :=
  (48 ≤ c.toNat && c.toNat ≤ 57) || (97 ≤ c.toNat && c.toNat ≤ 102)

/-- Value of one hex digit (as consumed by `parseInt(_, 16)`). -/
def hexDigitVal (c : Char) : Nat :=
  if 48 ≤ c.toNat && c.toNat ≤ 57 then c.toNat - 48
  else if 97 ≤ c.toNat && c.toNat ≤ 102 then c.toNat - 97 + 10
  else c.toNat - 65 + 10

/-- `parseInt(s, 16)` on a string of hex digits. -/
def parseHexNat (s : List Char) : Nat :=
  s.foldl (fun acc c => acc * 16 + hexDigitVal c) 0

/-- Embedding of `hexToRgb` from svg-utils.mjs: trim, ensure a leading `#`,
then accept `#xyz` (3-digit shorthand duplicating each nibble) or `#xxyyzz`
(6-digit form, decomposed with shifts and masks).  After the `#`-ensure step
the value always starts with `#`, so the anchored regexes of the source are
expressed as length/character-class tests on the characters after the `#`
(`value.tail`). -/
def hexToRgbL (hex : List Char) : Option Rgb :=
  let v0 := trimL hex
  let value := if v0.head? = some '#' then v0 else '#' :: v0
  let rest := value.tail
  if rest.length = 3 ∧ rest.all isHexDigitChar then
    some ⟨hexDigitVal (rest.getD 0 ' ') * 16 + hexDigitVal (rest.getD 0 ' '),
          hexDigitVal (rest.getD 1 ' ') * 16 + hexDigitVal (rest.getD 1 ' '),
          hexDigitVal (rest.getD 2 ' ') * 16 + hexDigitVal (rest.getD 2 ' ')⟩
  else if rest.length = 6 ∧ rest.all isHexDigitChar then
    let bigint := parseHexNat rest
    some ⟨bigint / 65536 % 256, bigint / 256 % 256, bigint % 256⟩
  else none

/-- `hexToRgb` on `String`. -/
def hexToRgb (hex : String) : Option Rgb := hexToRgbL hex.toList

/-- The lowercase hex digit character for `n < 16`, as produced by JS
`Number.prototype.toString(16)`. -/
def hexCharOf (n : Nat) : Char :=
  if n < 10 then Char.ofNat ('0'.toNat + n) else Char.ofNat ('a'.toNat + n - 10)

/-- Fuel-driven base-16 rendering of a natural number (digits produced
most-significant first), mirroring `Number.prototype.toString(16)`. -/
def natToHexAux : Nat → Nat → List Char
  | 0, _ => []
  | fuel + 1, n =>
    if n < 16 then [hexCharOf n] else natToHexAux fuel (n / 16) ++ [hexCharOf (n % 16)]

/-- `n.toString(16)` for a natural `n`. -/
def natToHexL (n : Nat) : List Char := natToHexAux (n + 1) n

/-- `i.toString(16)` for a JS integer (negatives render with a leading `-`). -/
def intToHexL (i : Int) : List Char :=
  if i < 0 then '-' :: natToHexL i.natAbs else natToHexL i.toNat

/-- `padStart(2, '0')`. -/
def padStart2 (s : List Char) : List Char :=
  if s.length ≥ 2 then s else List.replicate (2 - s.length) '0' ++ s

/-- Embedding of `rgbToHex`: `'#' + [r,g,b].map(x => x.toString(16).padStart(2,'0')).join('')`. -/
def rgbToHexL (r g b : Int) : List Char :=
  '#' :: (padStart2 (intToHexL r) ++ padStart2 (intToHexL g) ++ padStart2 (intToHexL b))

/-- `rgbToHex` on `String`. -/
def rgbToHex (r g b : Int) : String := ⟨rgbToHexL r g b⟩

/-- JS `Math.round`: half-way cases round up, i.e. `⌊x + 1/2⌋`. -/
def jsRound (q : ℚ) : ℤ := ⌊q + 1 / 2⌋

/-- `Math.round(b + (f - b) * t)`, computed on the unreduced integer fraction
`(2*(b*den + (f-b)*num) + den) / (2*den)` so that the kernel can evaluate it
(`Rat` addition/multiplication involve `Nat.gcd`, which the kernel cannot
reduce).  `mixChannel_eq_jsRound` proves this equal to `⌊b + (f-b)*t + 1/2⌋`,
the rounding the source performs. -/
def mixChannel (f b : ℤ) (t : ℚ) : ℤ :=
  Int.fdiv (2 * (b * (t.den : ℤ) + (f - b) * t.num) + (t.den : ℤ)) (2 * (t.den : ℤ))

/-- Embedding of `mixColors(fg, bg, ratio)`: per-channel
`round(bg + (fg - bg) * ratio)`, with the silent fallback of returning the
foreground string unchanged when either input fails to parse.  The JS number
`ratio` is modeled as an exact rational `t`. -/
def mixColors (fg bg : String) (t : ℚ) : String :=
  match hexToRgb fg, hexToRgb bg with
  | some fgRgb, some bgRgb =>
    rgbToHex
      (mixChannel (fgRgb.r : ℤ) (bgRgb.r : ℤ) t)
      (mixChannel (fgRgb.g : ℤ) (bgRgb.g : ℤ) t)
      (mixChannel (fgRgb.b : ℤ) (bgRgb.b : ℤ) t)
  | _, _ => fg

/-- `'#'` followed by exactly six lowercase hex digits: the canonical output
shape of `rgbToHex`. -/
def isCanonicalHex (s : List Char) : Bool :=
  s.head? = some '#' && s.tail.length = 6 && s.tail.all isLowerHexDigit

/-! ### Generic fuel-driven regex-replace and regex-collect scanners

JS `String.replace(regex, f)` with a global regex scans left to right: at each
position it attempts a match; on success it emits the replacement and resumes
after the matched text, and on failure it emits the current character and moves
one position right.  `scanWith step fuel s` implements this, with `step`
returning `some (replacement, rest)` on a match at the head of `s`.  Fuel
(initialized to the string length) makes the recursion structural, hence
kernel-computable; `scanWith_fuel` shows that any fuel at least the length
gives the same result, because every match consumes at least one character.
`collectWith` is the analogous `matchAll` loop, accumulating per-match data. -/

def scanWith (step : List Char → Option (List Char × List Char)) :
    Nat → List Char → List Char
  | 0, s => s
  | _ + 1, [] => []
  | fuel + 1, c :: cs =>
    match step (c :: cs) with
    | some (rep, rest) => rep ++ scanWith step fuel rest
    | none => c :: scanWith step fuel cs

/-- `step` consumes at least one character on every match. -/
def ScanStep (step : List Char → Option (List Char × List Char)) : Prop :=
  ∀ s rep rest, step s = some (rep, rest) → rest.length < s.length

/-- Run a replace-scan with fuel equal to the input length. -/
def runScan (step : List Char → Option (List Char × List Char)) (s : List Char) :
    List Char :=
  scanWith step s.length s

def collectWith {α : Type} (step : List Char → Option (α × List Char)) :
    Nat → List Char → List α
  | 0, _ => []
  | _ + 1, [] => []
  | fuel + 1, c :: cs =>
    match step (c :: cs) with
    | some (a, rest) => a :: collectWith step fuel rest
    | none => collectWith step fuel cs

/-- `step` consumes at least one character on every match (collector form). -/
def CollectStep {α : Type} (step : List Char → Option (α × List Char)) : Prop :=
  ∀ s a rest, step s = some (a, rest) → rest.length < s.length

/-- Run a collect-scan with fuel equal to the input length. -/
def runCollect {α : Type} (step : List Char → Option (α × List Char)) (s : List Char) :
    List α :=
  collectWith step s.length s

/-! ### Property extraction (`parseCssRules`, `extractCssVars`) -/

/-- The opening brace character (kept out of string literals). -/
def obr : Char := Char.ofNat 123

/-- The closing brace character (kept out of string literals). -/
def cbr : Char := Char.ofNat 125

/-- JS object / `Map.set` assignment on an insertion-ordered association list:
replace the value in place when the key exists, else append. -/
def jsSet : List (String × String) → String → String → List (String × String)
  | [], k, v => [(k, v)]
  | (k0, v0) :: rest, k, v =>
    if k0 = k then (k, v) :: rest else (k0, v0) :: jsSet rest k v

/-- The `[\w-]` class: ASCII word characters and the hyphen. -/
def isWordChar (c : Char) : Bool := c.isAlphanum || c = '_' || c = '-'

/-- One match of the inline declaration regex `--([\w-]+):([^;]+)` at the head
of `s` (no whitespace allowed around the colon).  Returns the
`('--' + name.trim(), value.trim())` pair exactly as the source stores it and
the rest of the input after the raw value, where the global regex resumes. -/
def matchInlineDecl (s : List Char) : Option ((String × String) × List Char) :=
  match dropLit ("--".toList) s with
  | none => none
  | some t =>
    let name := t.takeWhile isWordChar
    if name.isEmpty then none
    else
      let u := t.dropWhile isWordChar
      if u.head? = some ':' then
        let v := u.tail.takeWhile (fun c => c != ';')
        if v.isEmpty then none
        else some ((⟨'-' :: '-' :: trimL name⟩, ⟨trimL v⟩), u.tail.dropWhile (fun c => c != ';'))
      else none

/-- One match of the block declaration regex `--([\w-]+)\s*:\s*([^;]+)` at the
head of `s`.  The capture `\s*([^;]+)` followed by the source's `.trim()`
collapses to the trimmed run up to the next `;`, which must be nonempty. -/
def matchBlockDecl (s : List Char) : Option ((String × String) × List Char) :=
  match dropLit ("--".toList) s with
  | none => none
  | some t =>
    let name := t.takeWhile isWordChar
    if name.isEmpty then none
    else
      let u := (t.dropWhile isWordChar).dropWhile isWs
      if u.head? = some ':' then
        let v := u.tail.takeWhile (fun c => c != ';')
        if v.isEmpty then none
        else some ((⟨'-' :: '-' :: trimL name⟩, ⟨trimL v⟩), u.tail.dropWhile (fun c => c != ';'))
      else none

/-- One match of the style-attribute regex `style=(["\'])([^"\']*?)\1` at the
head of `s`: the quote character, the value (containing neither quote), and
the rest after the closing quote, which must equal the opening one. -/
def matchStyleAttr (s : List Char) : Option (Char × List Char × List Char) :=
  match dropLit ("style=".toList) s with
  | none => none
  | some t =>
    match t.head? with
    | none => none
    | some q =>
      if q = '"' ∨ q = sq then
        let v := t.tail.takeWhile (fun c => c != '"' && c != sq)
        let u := t.tail.dropWhile (fun c => c != '"' && c != sq)
        match u.head? with
        | some c2 => if c2 = q then some (q, v, u.tail) else none
        | none => none
      else none

/-- Split at the first case-insensitive occurrence of `</style>` (the lazy
`([\s\S]*?)<\/style>`): the text before it and the text after it. -/
def splitAtClose : List Char → Option (List Char × List Char)
  | [] => none
  | c :: cs =>
    match dropLitCI ("</style>".toList) (c :: cs) with
    | some rest => some ([], rest)
    | none =>
      match splitAtClose cs with
      | some (pre, post) => some (c :: pre, post)
      | none => none

/-- One match of `<style[^>]*>([\s\S]*?)<\/style>` (flags `gi`) at the head of
`s`: the content between the tags and the rest after the closing tag.  The
opening tag's attribute text is consumed; the block-cleanup pass re-emits a
bare `<style>`. -/
def matchStyleBlock (s : List Char) : Option (List Char × List Char) :=
  match dropLitCI ("<style".toList) s with
  | none => none
  | some t =>
    let u := t.dropWhile (fun c => c != '>')
    if u.head? = some '>' then splitAtClose u.tail else none

/-- A parsed CSS rule: trimmed selector text and its custom-property map. -/
structure CssRule where
  selector : List Char
  declarations : List (String × String)
deriving DecidableEq, Repr

/-- One match of the rule regex `([^{]+)\{([^}]*)\}` at the head of `s`,
with the rule's custom-property declarations collected into a `Map`. -/
def matchRule (s : List Char) : Option (CssRule × List Char) :=
  let sel := s.takeWhile (fun c => c != obr)
  if sel.isEmpty then none
  else
    let t := s.dropWhile (fun c => c != obr)
    if t.head? = some obr then
      let blk := t.tail.takeWhile (fun c => c != cbr)
      let t2 := t.tail.dropWhile (fun c => c != cbr)
      if t2.head? = some cbr then
        some (⟨trimL sel,
               (runCollect matchBlockDecl blk).foldl (fun m p => jsSet m p.1 p.2) []⟩,
              t2.tail)
      else none
    else none

/-- Embedding of `parseCssRules`: every rule match, keeping only rules that
declare at least one custom property. -/
def parseCssRules (styleContent : List Char) : List CssRule :=
  (runCollect matchRule styleContent).filter (fun r => !r.declarations.isEmpty)

/-- The test `/^(::?root|html|body|svg|\*)$/i` on a (trimmed) selector: one or
two colons followed by `root`, or `html`, `body`, `svg`, `*`, compared
case-insensitively.  Note that a bare `root` without a colon does not match. -/
def isGlobalSelector (sel : List Char) : Bool :=
  let l := sel.map Char.toLower
  (l == ':' :: ("root".toList)) || (l == ':' :: ':' :: ("root".toList)) ||
  (l == "html".toList) || (l == "body".toList) || (l == "svg".toList) || (l == ['*'])

/-- The layered table produced by `extractCssVars`. -/
structure CssVars where
  inline : List (String × String)
  «scoped» : List CssRule
  global : List (String × String)
deriving DecidableEq, Repr

/-- Step 1 of `extractCssVars`: every style-attribute value, in order. -/
def styleAttrValues (svg : List Char) : List (List Char) :=
  runCollect (fun s => (matchStyleAttr s).map (fun r => (r.2.1, r.2.2))) svg

/-- All inline custom-property declarations, later writers overwriting. -/
def extractInline (svg : List Char) : List (String × String) :=
  (styleAttrValues svg).foldl
    (fun acc v => (runCollect matchInlineDecl v).foldl (fun m p => jsSet m p.1 p.2) acc) []

/-- Step 2 of `extractCssVars`: the contents of every style block, in order. -/
def styleBlockContents (svg : List Char) : List (List Char) :=
  runCollect matchStyleBlock svg

/-- Partition the parsed rules: global-selector rules merge their declarations
into `global` (later rules overwriting), all other rules append to `scoped`. -/
def partitionRules (rules : List CssRule) (init : CssVars) : CssVars :=
  rules.foldl
    (fun acc r =>
      if isGlobalSelector r.selector then
        { acc with global := r.declarations.foldl (fun m p => jsSet m p.1 p.2) acc.global }
      else { acc with «scoped» := acc.«scoped» ++ [r] })
    init

/-- Embedding of `extractCssVars`. -/
def extractCssVars (svg : List Char) : CssVars :=
  partitionRules (((styleBlockContents svg).map parseCssRules).flatten)
    ⟨extractInline svg, [], []⟩

/-! ### Palette resolution (`effectiveVars` and the `computed` object) -/

/-- Object lookup. -/
def lookupStr (obj : List (String × String)) (k : String) : Option String :=
  List.lookup k obj

/-- `effectiveVars = { ...cssVars.global, ...cssVars.inline, ...colors }`:
later spreads shadow earlier ones. -/
def effVar (cv : CssVars) (colors : List (String × String)) (k : String) : Option String :=
  lookupStr colors k <|> lookupStr cv.inline k <|> lookupStr cv.global k

/-- JS `a || b` with an optional string on the left: a present non-empty value
is truthy and wins; `undefined` and the empty string fall through. -/
def orTruthy : Option String → String → String
  | some v, d => if v = "" then d else v
  | none, d => d

/-- The ratio constants of the source (JS doubles modeled as exact decimal
rationals), built with `Rat.mk\'` so the kernel can evaluate them. -/
def q03 : ℚ := Rat.mk' 3 10

def q05 : ℚ := Rat.mk' 1 2

def q04 : ℚ := Rat.mk' 2 5

def q003 : ℚ := Rat.mk' 3 100

def q02 : ℚ := Rat.mk' 1 5

def q025 : ℚ := Rat.mk' 1 4

def q005 : ℚ := Rat.mk' 1 20

def q012 : ℚ := Rat.mk' 3 25

def q01 : ℚ := Rat.mk' 1 10

/-- The `computed` palette object of `flattenSvg`: 19 slots in source order,
resolved from `effectiveVars` with `||` chains and `mixColors` defaults. -/
def computePalette (cv : CssVars) (colors : List (String × String)) :
    List (String × String) :=
  let eff := effVar cv colors
  let bg := orTruthy (eff "bg") (orTruthy (eff "--bg") "#FFFFFF")
  let fg := orTruthy (eff "fg") (orTruthy (eff "--fg") "#27272A")
  let line := orTruthy (eff "line") (orTruthy (eff "--line") (mixColors fg bg q03))
  let accent := orTruthy (eff "accent") (orTruthy (eff "--accent") (mixColors fg bg q05))
  let muted := orTruthy (eff "muted") (orTruthy (eff "--muted") (mixColors fg bg q04))
  let surface := orTruthy (eff "surface") (orTruthy (eff "--surface") (mixColors fg bg q003))
  let border := orTruthy (eff "border") (orTruthy (eff "--border") (mixColors fg bg q02))
  [("--bg", bg), ("--fg", fg), ("--line", line), ("--accent", accent),
   ("--muted", muted), ("--surface", surface), ("--border", border),
   ("--_text", fg), ("--_text-sec", muted), ("--_text-muted", muted),
   ("--_text-faint", mixColors fg bg q025), ("--_line", line), ("--_arrow", accent),
   ("--_node-fill", surface), ("--_node-stroke", border), ("--_group-fill", bg),
   ("--_group-hdr", mixColors fg bg q005), ("--_inner-stroke", mixColors fg bg q012),
   ("--_key-badge", mixColors fg bg q01)]

/-- The 19 palette slot names in the `computed` object's key order (this is
both `varNames` and `replacedVars` in the source). -/
def computedNames : List String :=
  ["--bg", "--fg", "--line", "--accent", "--muted", "--surface", "--border",
   "--_text", "--_text-sec", "--_text-muted", "--_text-faint", "--_line", "--_arrow",
   "--_node-fill", "--_node-stroke", "--_group-fill", "--_group-hdr",
   "--_inner-stroke", "--_key-badge"]

/-! ### The substitution pass -/

/-- The negative lookahead `(?![^(]*\))`: its inner pattern matches exactly
when a `)` occurs before any `(` in the remaining text. -/
def closesBeforeOpen : List Char → Bool
  | [] => false
  | c :: cs => if c = ')' then true else if c = '(' then false else closesBeforeOpen cs

/-- The lazy fallback tail `([\s\S]*?)\)(?![^(]*\))`: grow the (discarded)
fallback one character at a time, stopping at the first `)` whose remaining
text passes the negative lookahead; returns the text after that `)`. -/
def fallbackScan : List Char → Option (List Char)
  | [] => none
  | c :: cs =>
    if c = ')' then (if closesBeforeOpen cs then fallbackScan cs else some cs)
    else fallbackScan cs

/-- Continuation after a slot name inside `var(...)`: the greedy optional
group `(?:\s*,\s*([\s\S]*?))?` followed by `\)` and the lookahead.  With the
group taken: `\s*,\s*` then the lazy fallback.  Without it: `\)` directly. -/
def matchAfterName (t : List Char) : Option (List Char) :=
  if (t.dropWhile isWs).head? = some ',' then fallbackScan (t.dropWhile isWs).tail
  else if t.head? = some ')' then (if closesBeforeOpen t.tail then none else some t.tail)
  else none

/-- The name alternation `(--bg|--fg|...)` with regex backtracking: try each
name in order; when its continuation fails, fall through to the next one. -/
def tryNames : List String → List Char → Option (String × List Char)
  | [], _ => none
  | n :: ns, s =>
    match dropLit n.toList s with
    | some t =>
      match matchAfterName t with
      | some rest => some (n, rest)
      | none => tryNames ns s
    | none => tryNames ns s

/-- One match of the substitution regex
`var\((--bg|...)(?:\s*,\s*([\s\S]*?))?\)(?![^(]*\))` at the head of `s`.
The replacement is `computed[varName]`; the name list is exactly the key set
of `computed`, so the lookup always succeeds (`getD ""` is never taken when
`vals` has the `computedNames` keys). -/
def tryVarMatch (vals : List (String × String)) (s : List Char) :
    Option (List Char × List Char) :=
  match dropLit ("var(".toList) s with
  | none => none
  | some t =>
    match tryNames computedNames t with
    | some (n, rest) => some (((lookupStr vals n).getD "").toList, rest)
    | none => none

/-- The substitution pass of `flattenSvg`. -/
def substScan (vals : List (String × String)) (s : List Char) : List Char :=
  runScan (tryVarMatch vals) s

/-! ### The attribute-cleanup pass -/

/-- JS `String.split(\';\')` (empty pieces preserved). -/
def splitOnSemi : List Char → List (List Char)
  | [] => [[]]
  | c :: rest =>
    let ps := splitOnSemi rest
    if c = ';' then [] :: ps
    else
      match ps with
      | p :: ps2 => (c :: p) :: ps2
      | [] => [[c]]

/-- Keep a trimmed declaration unless its property name (the text before the
first `:`, trimmed) starts with `--` and is one of the replaced slot names;
declarations with no `:` are kept. -/
def keepDecl (replaced : List String) (part : List Char) : Bool :=
  if part.contains ':' then
    let propName := trimL (part.takeWhile (fun c => c != ':'))
    if (dropLit ("--".toList) propName).isSome then !(replaced.contains ⟨propName⟩)
    else true
  else true

/-- Join with `'; '`. -/
def joinSemi : List (List Char) → List Char
  | [] => []
  | [p] => p
  | p :: ps => p ++ ';' :: ' ' :: joinSemi ps

/-- The per-attribute callback of the attribute-cleanup pass: split on `;`,
trim, drop empties, filter with `keepDecl`; when nothing is kept the whole
attribute is removed, otherwise the kept declarations are rejoined with `; `
inside the original quote character. -/
def cleanStyleAttr (replaced : List String) (q : Char) (styleContent : List Char) :
    List Char :=
  let declarations := ((splitOnSemi styleContent).map trimL).filter (fun p => !p.isEmpty)
  let kept := declarations.filter (keepDecl replaced)
  if kept.isEmpty then []
  else ("style=".toList) ++ q :: (joinSemi kept ++ [q])

/-- One step of the attribute-cleanup pass. -/
def tryAttrClean (replaced : List String) (s : List Char) :
    Option (List Char × List Char) :=
  (matchStyleAttr s).map (fun r => (cleanStyleAttr replaced r.1 r.2.1, r.2.2))

/-- The attribute-cleanup pass of `flattenSvg`. -/
def attrScan (replaced : List String) (s : List Char) : List Char :=
  runScan (tryAttrClean replaced) s

/-! ### The block-cleanup pass -/

/-- One step of `@import url(...)` removal (`/@import\s+url\([^)]+\);?/gi`). -/
def tryImportUrl (s : List Char) : Option (List Char × List Char) :=
  match dropLitCI ("@import".toList) s with
  | none => none
  | some t =>
    if (t.takeWhile isWs).isEmpty then none
    else
      match dropLitCI ("url(".toList) (t.dropWhile isWs) with
      | none => none
      | some u =>
        let inner := u.takeWhile (fun c => c != ')')
        if inner.isEmpty then none
        else
          match (u.dropWhile (fun c => c != ')')).head? with
          | some _ =>
            let rest := (u.dropWhile (fun c => c != ')')).tail
            some ([], if rest.head? = some ';' then rest.tail else rest)
          | none => none

/-- One step of quoted `@import "..."` removal
(`/@import\s+["\'][^"\']+["\'];?/gi`; the closing quote may be either kind). -/
def tryImportQuoted (s : List Char) : Option (List Char × List Char) :=
  match dropLitCI ("@import".toList) s with
  | none => none
  | some t =>
    if (t.takeWhile isWs).isEmpty then none
    else
      match (t.dropWhile isWs).head? with
      | none => none
      | some q =>
        if q = '"' ∨ q = sq then
          let u := (t.dropWhile isWs).tail
          let inner := u.takeWhile (fun c => c != '"' && c != sq)
          if inner.isEmpty then none
          else
            match (u.dropWhile (fun c => c != '"' && c != sq)).head? with
            | some _ =>
              let rest := (u.dropWhile (fun c => c != '"' && c != sq)).tail
              some ([], if rest.head? = some ';' then rest.tail else rest)
            | none => none
        else none

/-- After a replaced name in the declaration-removal regex: `\s*:\s*[^;]*?;`.
The lazy value (which may be empty, and whose `\s*` head is subsumed) runs to
the first `;`, which must be present; the match ends after that `;`. -/
def declTail (u : List Char) : Option (List Char) :=
  if (u.dropWhile isWs).head? = some ':' then
    let w := (u.dropWhile isWs).tail
    match (w.dropWhile (fun c => c != ';')).head? with
    | some _ => some ((w.dropWhile (fun c => c != ';')).tail)
    | none => none
  else none

/-- Name alternation of the declaration-removal regex, with backtracking. -/
def tryNamesDecl : List String → List Char → Option (List Char)
  | [], _ => none
  | n :: ns, t =>
    match dropLit n.toList t with
    | some u =>
      match declTail u with
      | some rest => some rest
      | none => tryNamesDecl ns t
    | none => tryNamesDecl ns t

/-- One step of the replaced-declaration removal
`\s*(--bg|...)\s*:\s*[^;]*?;` inside style blocks (textual, not rule-scoped). -/
def tryRemoveDecl (replaced : List String) (s : List Char) :
    Option (List Char × List Char) :=
  match tryNamesDecl replaced (s.dropWhile isWs) with
  | some rest => some ([], rest)
  | none => none

/-- One step of blank-line collapsing `/\n\s*\n/ → \n` (greedy `\s*`, so the
match runs through the last newline of the whitespace run). -/
def tryNlCollapse (s : List Char) : Option (List Char × List Char) :=
  if s.head? = some '\n' then
    let w := s.tail.takeWhile isWs
    if w.contains '\n' then
      let afterLast := (w.reverse.takeWhile (fun c => c != '\n')).reverse
      some (['\n'], afterLast ++ s.tail.dropWhile isWs)
    else none
  else none

/-- One step of empty-rule removal `[^{}]+?\{\s*\}`. -/
def tryEmptyRule (s : List Char) : Option (List Char × List Char) :=
  let run := s.takeWhile (fun c => c != obr && c != cbr)
  if run.isEmpty then none
  else
    let t := s.dropWhile (fun c => c != obr && c != cbr)
    if t.head? = some obr then
      if (t.tail.dropWhile isWs).head? = some cbr then
        some ([], (t.tail.dropWhile isWs).tail)
      else none
    else none

/-- The content cleaning of the block-cleanup pass, in source order: strip
both `@import` forms; remove replaced declarations (only when some variables
were replaced); collapse blank lines and trim; remove now-empty rules, then
collapse and trim again. -/
def cleanBlockContent (replaced : List String) (content : List Char) : List Char :=
  let c1 := runScan tryImportUrl content
  let c2 := runScan tryImportQuoted c1
  let c3 := if replaced.isEmpty then c2 else runScan (tryRemoveDecl replaced) c2
  let c4 := trimL (runScan tryNlCollapse c3)
  trimL (runScan tryNlCollapse (runScan tryEmptyRule c4))

/-- `/[^{}\s]/.test(content)`: some character besides braces and whitespace. -/
def hasRealContent (c : List Char) : Bool :=
  c.any (fun ch => ch != obr && ch != cbr && !(isWs ch))

/-- One step of the block-cleanup pass: a matched style block is re-emitted as
a bare `<style>` with its cleaned content, or removed entirely when nothing
but braces/whitespace remains. -/
def tryBlockClean (replaced : List String) (s : List Char) :
    Option (List Char × List Char) :=
  (matchStyleBlock s).map fun r =>
    (if hasRealContent (cleanBlockContent replaced r.1) then
       ("<style>".toList) ++ cleanBlockContent replaced r.1 ++ ("</style>".toList)
     else [], r.2)

/-- The block-cleanup pass of `flattenSvg`. -/
def blockScan (replaced : List String) (s : List Char) : List Char :=
  runScan (tryBlockClean replaced) s

/-- Embedding of `flattenSvg`: extraction, palette computation, substitution,
attribute cleanup, block cleanup. -/
def flattenSvg (svg : String) (colors : List (String × String)) : String :=
  let cssVars := extractCssVars svg.toList
  let computed := computePalette cssVars colors
  let replacedVars := computed.map Prod.fst
  let flat1 := substScan computed svg.toList
  let flat2 := attrScan replacedVars flat1
  ⟨blockScan replacedVars flat2⟩

/-- Keys of the form `--name`. -/
def isDashedKey (k : String) : Bool :=
  match k.toList with
  | '-' :: '-' :: _ => true
  | _ => false

/-! ### Claim C1: palette resolution order -/

/-- The resolution order stated by claim C1 for a public semantic name `x`:
the first available value among the bare override `x`, the dashed override
`--x`, the inline declaration `--x` and the global declaration `--x`;
otherwise the built-in default `d`. -/
def specResolve (cv : CssVars) (colors : List (String × String)) (x d : String) : String :=
  (lookupStr colors x <|> lookupStr colors ("--" ++ x) <|>
    lookupStr cv.inline ("--" ++ x) <|> lookupStr cv.global ("--" ++ x)).getD d

/-- The built-in defaults stated by claim C1: `#FFFFFF` / `#27272A` for
`bg` / `fg`, and `mixColors`-derived values with ratios 0.3, 0.5, 0.4, 0.03,
0.2 (from the resolved fg/bg pair) for the remaining public names. -/
def specDefault (cv : CssVars) (colors : List (String × String)) (x : String) : String :=
  let bg := specResolve cv colors "bg" "#FFFFFF"
  let fg := specResolve cv colors "fg" "#27272A"
  if x = "bg" then "#FFFFFF"
  else if x = "fg" then "#27272A"
  else if x = "line" then mixColors fg bg q03
  else if x = "accent" then mixColors fg bg q05
  else if x = "muted" then mixColors fg bg q04
  else if x = "surface" then mixColors fg bg q003
  else mixColors fg bg q02

/-- The seven public semantic names. -/
def publicNames : List String :=
  ["bg", "fg", "line", "accent", "muted", "surface", "border"]

/-- Character-wise divergence of two literals within their common length. -/
def divergeB : List Char → List Char → Bool
  | [], _ => false
  | _ :: _, [] => false
  | c :: cs, x :: xs => if x = c then divergeB cs xs else true

/-- `skipsName m n = true` certifies that in the name alternation, trying `m`
at a position where the text is `n` followed by a delimiter always falls
through: either the literals diverge inside `n`, or `m` is a proper prefix of
`n` whose continuation character is rejected by `matchAfterName`. -/
def skipsName (m n : String) : Bool :=
  divergeB m.toList n.toList ||
  (match dropLit m.toList n.toList with
   | some (c :: _) => !(isWs c) && !(c = ',') && !(c = ')')
   | _ => false)

/-- `namesResolve l n = true` certifies that `n` occurs in `l` and every
earlier alternative is skipped (in the sense of `skipsName`). -/
def namesResolve (l : List String) (n : String) : Bool :=
  match l with
  | [] => false
  | m :: ms => if m = n then true else skipsName m n && namesResolve ms n

/-- The keep test of the attribute-cleanup pass, written from the claim: a
declaration with a `:` is kept exactly when its property name (the trimmed
text before the first `:`) does not both start with `--` and equal one of the
slot names; a part with no `:` has no property name and is kept. -/
def specKeepDecl (slots : List String) (part : List Char) : Bool :=
  if part.contains ':' then
    let propName := trimL (part.takeWhile (fun c => c != ':'))
    !((dropLit ("--".toList) propName).isSome && slots.contains ⟨propName⟩)
  else true

/-- The attribute callback written from the claim: split on `;`, trim, drop
empty parts, keep by `specKeepDecl`, rejoin with `; ` inside the original
quote, and produce nothing (attribute removed) when no declaration remains. -/
def specCleanAttr (slots : List String) (q : Char) (v : List Char) : List Char :=
  let kept := (((splitOnSemi v).map trimL).filter (fun p => !p.isEmpty)).filter
    (specKeepDecl slots)
  if kept.isEmpty then []
  else ("style=".toList) ++ q :: (joinSemi kept ++ [q])

theorem dropLit_length : ∀ lit s t, dropLit lit s = some t →
    t.length + lit.length = s.length := by
  intro lit
  induction lit with
  | nil => intro s t h; simp [dropLit] at h; simp [h]
  | cons c cs ih =>
    intro s t h
    cases s with
    | nil => simp [dropLit] at h
    | cons x xs =>
      simp only [dropLit] at h
      split at h
      · have := ih xs t h
        simp [List.length_cons]; omega
      · exact absurd h (by simp)

theorem dropLitCI_length : ∀ lit s t, dropLitCI lit s = some t →
    t.length + lit.length = s.length := by
  intro lit
  induction lit with
  | nil => intro s t h; simp [dropLitCI] at h; simp [h]
  | cons c cs ih =>
    intro s t h
    cases s with
    | nil => simp [dropLitCI] at h
    | cons x xs =>
      simp only [dropLitCI] at h
      split at h
      · have := ih xs t h
        simp [List.length_cons]; omega
      · exact absurd h (by simp)

theorem length_dropWhile_le (p : Char → Bool) (l : List Char) :
    (l.dropWhile p).length ≤ l.length := by
  induction l with
  | nil => simp [List.dropWhile]
  | cons c cs ih =>
    simp only [List.dropWhile]
    split
    · exact Nat.le_succ_of_le ih
    · simp

theorem mixChannel_eq_jsRound (f b : ℤ) (t : ℚ) :
    mixChannel f b t = jsRound ((b : ℚ) + ((f : ℚ) - (b : ℚ)) * t) := by
  unfold mixChannel jsRound
  have hd : (0 : ℤ) ≤ 2 * (t.den : ℤ) := by positivity
  have hdQ : ((t.den : ℚ)) ≠ 0 := by
    exact_mod_cast t.den_nz
  rw [Int.fdiv_eq_ediv _ hd]
  have key : (b : ℚ) + ((f : ℚ) - (b : ℚ)) * t + 1 / 2 =
      ((2 * (b * (t.den : ℤ) + (f - b) * t.num) + (t.den : ℤ) : ℤ) : ℚ) /
        ((2 * t.den : ℕ) : ℚ) := by
    have ht : ((t.num : ℚ)) / ((t.den : ℚ)) = t := Rat.num_div_den t
    rw [div_eq_iff hdQ] at ht
    push_cast
    field_simp
    linear_combination (-4 * ((f : ℚ) - (b : ℚ))) * ht
  rw [key, Rat.floor_intCast_div_natCast]
  have : ((2 * t.den : ℕ) : ℤ) = 2 * (t.den : ℤ) := by push_cast; ring
  rw [this]

/-! ### Hex digit and round-trip lemmas -/

theorem hexDigitVal_hexCharOf : ∀ n < 16, hexDigitVal (hexCharOf n) = n := by decide

theorem isHexDigitChar_hexCharOf : ∀ n < 16, isHexDigitChar (hexCharOf n) = true := by decide

theorem hexCharOf_not_ws : ∀ n < 16, isWs (hexCharOf n) = false := by decide

theorem hexDigitVal_le (c : Char) (h : isHexDigitChar c = true) : hexDigitVal c ≤ 15 := by
  simp only [isHexDigitChar, Bool.or_eq_true, Bool.and_eq_true, decide_eq_true_eq] at h
  unfold hexDigitVal
  split
  · rename_i h1
    simp only [Bool.and_eq_true, decide_eq_true_eq] at h1
    omega
  · split
    · rename_i h2
      simp only [Bool.and_eq_true, decide_eq_true_eq] at h2
      omega
    · rename_i h1 h2
      simp only [Bool.and_eq_true, decide_eq_true_eq, not_and, Bool.not_eq_true,
        decide_eq_false_iff_not, not_le] at h1 h2
      omega

theorem dropWhile_eq_self_of_not {p : Char → Bool} {l : List Char}
    (h : ∀ c ∈ l, p c = false) : l.dropWhile p = l := by
  cases l with
  | nil => rfl
  | cons c cs =>
    rw [List.dropWhile_cons]
    simp [h c (by simp)]

theorem trimL_eq_self {l : List Char} (h : ∀ c ∈ l, isWs c = false) : trimL l = l := by
  unfold trimL
  rw [dropWhile_eq_self_of_not h, dropWhile_eq_self_of_not, List.reverse_reverse]
  intro c hc
  exact h c (by simpa using hc)

theorem natToHexAux_succ (fuel n : Nat) :
    natToHexAux (fuel + 1) n =
      if n < 16 then [hexCharOf n]
      else natToHexAux fuel (n / 16) ++ [hexCharOf (n % 16)] := rfl

theorem byte_render (m : Nat) (hm : m ≤ 255) :
    padStart2 (natToHexL m) = [hexCharOf (m / 16), hexCharOf (m % 16)] := by
  by_cases h16 : m < 16
  · have h1 : natToHexL m = [hexCharOf m] := by
      unfold natToHexL
      rw [natToHexAux_succ]
      simp [h16]
    rw [h1]
    have hdiv : m / 16 = 0 := by omega
    have hmod : m % 16 = m := by omega
    have h0 : hexCharOf 0 = '0' := by decide
    simp [padStart2, hdiv, hmod, h0, List.replicate]
  · obtain ⟨k, rfl⟩ : ∃ k, m = k + 1 := ⟨m - 1, by omega⟩
    have h1 : natToHexL (k + 1) = [hexCharOf ((k + 1) / 16), hexCharOf ((k + 1) % 16)] := by
      unfold natToHexL
      rw [natToHexAux_succ]
      simp only [h16, if_false]
      have hk : 1 ≤ k := by omega
      obtain ⟨j, rfl⟩ : ∃ j, k = j + 1 := ⟨k - 1, by omega⟩
      rw [natToHexAux_succ]
      have : (j + 1 + 1) / 16 < 16 := by omega
      simp [this]
    rw [h1]
    simp [padStart2]

theorem intToHexL_ofNat (m : Nat) : intToHexL (m : ℤ) = natToHexL m := by
  unfold intToHexL
  have : ¬ ((m : ℤ) < 0) := by omega
  simp [this]

theorem rgbToHexL_eq (r g b : Nat) (hr : r ≤ 255) (hg : g ≤ 255) (hb : b ≤ 255) :
    rgbToHexL (r : ℤ) (g : ℤ) (b : ℤ) =
      '#' :: [hexCharOf (r / 16), hexCharOf (r % 16), hexCharOf (g / 16),
              hexCharOf (g % 16), hexCharOf (b / 16), hexCharOf (b % 16)] := by
  unfold rgbToHexL
  rw [intToHexL_ofNat, intToHexL_ofNat, intToHexL_ofNat,
      byte_render r hr, byte_render g hg, byte_render b hb]
  rfl

/-- Evaluation of `hexToRgbL` on a `#`-prefixed 6-hex-digit string. -/
theorem hexToRgbL_parse6 (ds : List Char) (hws : ∀ c ∈ ds, isWs c = false)
    (hlen : ds.length = 6) (hall : ds.all isHexDigitChar = true) :
    hexToRgbL ('#' :: ds) =
      some ⟨parseHexNat ds / 65536 % 256, parseHexNat ds / 256 % 256, parseHexNat ds % 256⟩ := by
  have htrim : trimL ('#' :: ds) = '#' :: ds := by
    refine trimL_eq_self ?_
    intro c hc
    rcases List.mem_cons.mp hc with rfl | hc
    · decide
    · exact hws c hc
  unfold hexToRgbL
  simp only [htrim, List.head?_cons, eq_self_iff_true, if_true, List.tail_cons]
  rw [if_neg (by simp [hlen]), if_pos ⟨hlen, hall⟩]

theorem hexToRgb_rgbToHex (r g b : Nat) (hr : r ≤ 255) (hg : g ≤ 255) (hb : b ≤ 255) :
    hexToRgb (rgbToHex (r : ℤ) (g : ℤ) (b : ℤ)) = some ⟨r, g, b⟩ := by
  show hexToRgbL (rgbToHexL (r : ℤ) (g : ℤ) (b : ℤ)) = some ⟨r, g, b⟩
  rw [rgbToHexL_eq r g b hr hg hb]
  rw [hexToRgbL_parse6]
  · have e1 := hexDigitVal_hexCharOf (r / 16) (by omega)
    have e2 := hexDigitVal_hexCharOf (r % 16) (by omega)
    have e3 := hexDigitVal_hexCharOf (g / 16) (by omega)
    have e4 := hexDigitVal_hexCharOf (g % 16) (by omega)
    have e5 := hexDigitVal_hexCharOf (b / 16) (by omega)
    have e6 := hexDigitVal_hexCharOf (b % 16) (by omega)
    simp only [parseHexNat, List.foldl_cons, List.foldl_nil, e1, e2, e3, e4, e5, e6,
      Option.some.injEq, Rgb.mk.injEq]
    refine ⟨by omega, by omega, by omega⟩
  · intro c hc
    simp only [List.mem_cons, List.not_mem_nil, or_false] at hc
    rcases hc with rfl | rfl | rfl | rfl | rfl | rfl
    · exact hexCharOf_not_ws _ (by omega)
    · exact hexCharOf_not_ws _ (by omega)
    · exact hexCharOf_not_ws _ (by omega)
    · exact hexCharOf_not_ws _ (by omega)
    · exact hexCharOf_not_ws _ (by omega)
    · exact hexCharOf_not_ws _ (by omega)
  · rfl
  · simp only [List.all_cons, List.all_nil, Bool.and_eq_true, and_true]
    exact ⟨isHexDigitChar_hexCharOf _ (by omega), isHexDigitChar_hexCharOf _ (by omega),
      isHexDigitChar_hexCharOf _ (by omega), isHexDigitChar_hexCharOf _ (by omega),
      isHexDigitChar_hexCharOf _ (by omega), isHexDigitChar_hexCharOf _ (by omega)⟩

theorem getD_hexDigitVal_le {l : List Char} (hall : l.all isHexDigitChar = true)
    (i : Nat) (hi : i < l.length) (d : Char) : hexDigitVal (l.getD i d) ≤ 15 := by
  rw [List.getD_eq_getElem l d hi]
  exact hexDigitVal_le _ (List.all_eq_true.mp hall _ (List.getElem_mem hi))

theorem hexToRgb_le (s : String) (c : Rgb) (h : hexToRgb s = some c) :
    c.r ≤ 255 ∧ c.g ≤ 255 ∧ c.b ≤ 255 := by
  unfold hexToRgb at h
  simp only [hexToRgbL] at h
  split at h
  all_goals
    split at h
    case isTrue hcond =>
      injection h with h
      subst h
      have b0 := getD_hexDigitVal_le hcond.2 0 (by rw [hcond.1]; norm_num) ' '
      have b1 := getD_hexDigitVal_le hcond.2 1 (by rw [hcond.1]; norm_num) ' '
      have b2 := getD_hexDigitVal_le hcond.2 2 (by rw [hcond.1]; norm_num) ' '
      refine ⟨?_, ?_, ?_⟩ <;> dsimp only <;> omega
    case isFalse =>
      split at h
      · injection h with h
        subst h
        refine ⟨?_, ?_, ?_⟩ <;> dsimp only <;> omega
      · exact absurd h (by simp)

theorem jsRound_intCast (z : ℤ) : jsRound (z : ℚ) = z := by
  unfold jsRound
  rw [Int.floor_eq_iff]
  constructor <;> norm_num

theorem mixChannel_self (x : ℤ) (t : ℚ) : mixChannel x x t = x := by
  rw [mixChannel_eq_jsRound]
  have : (x : ℚ) + ((x : ℚ) - (x : ℚ)) * t = ((x : ℤ) : ℚ) := by ring
  rw [this, jsRound_intCast]

theorem mixColors_eq_rgbToHex (fg bg : String) (t : ℚ) (F B : Rgb)
    (hf : hexToRgb fg = some F) (hb : hexToRgb bg = some B) :
    mixColors fg bg t =
      rgbToHex (mixChannel (F.r : ℤ) (B.r : ℤ) t) (mixChannel (F.g : ℤ) (B.g : ℤ) t)
        (mixChannel (F.b : ℤ) (B.b : ℤ) t) := by
  unfold mixColors
  rw [hf, hb]

theorem lower_hex_not_ws (c : Char) (h : isLowerHexDigit c = true) : isWs c = false := by
  by_contra hw
  simp only [Bool.not_eq_false] at hw
  simp only [isWs, Char.isWhitespace, Bool.or_eq_true, decide_eq_true_eq] at hw
  rcases hw with ((rfl | rfl) | rfl) | rfl <;> simp [isLowerHexDigit] at h

theorem lower_hex_isHex (c : Char) (h : isLowerHexDigit c = true) :
    isHexDigitChar c = true := by
  simp only [isLowerHexDigit, Bool.or_eq_true, Bool.and_eq_true, decide_eq_true_eq] at h
  simp only [isHexDigitChar, Bool.or_eq_true, Bool.and_eq_true, decide_eq_true_eq]
  omega

theorem lower_hex_val_le (c : Char) (h : isLowerHexDigit c = true) : hexDigitVal c ≤ 15 :=
  hexDigitVal_le c (lower_hex_isHex c h)

theorem hexCharOf_hexDigitVal (c : Char) (h : isLowerHexDigit c = true) :
    hexCharOf (hexDigitVal c) = c := by
  simp only [isLowerHexDigit, Bool.or_eq_true, Bool.and_eq_true, decide_eq_true_eq] at h
  unfold hexDigitVal
  rcases h with ⟨h1, h2⟩ | ⟨h1, h2⟩
  · rw [if_pos (by simp only [Bool.and_eq_true, decide_eq_true_eq]; omega)]
    unfold hexCharOf
    rw [if_pos (by omega)]
    have he : '0'.toNat + (c.toNat - 48) = c.toNat := by
      have h0 : '0'.toNat = 48 := by decide
      omega
    rw [he, Char.ofNat_toNat]
  · rw [if_neg (by simp only [Bool.and_eq_true, decide_eq_true_eq]; omega),
        if_pos (by simp only [Bool.and_eq_true, decide_eq_true_eq]; omega)]
    unfold hexCharOf
    rw [if_neg (by omega)]
    have he : 'a'.toNat + (c.toNat - 97 + 10) - 10 = c.toNat := by
      have h0 : 'a'.toNat = 97 := by decide
      omega
    rw [he, Char.ofNat_toNat]

theorem rgbToHex_of_canonical (s : List Char) (F : Rgb)
    (hc : isCanonicalHex s = true) (hp : hexToRgbL s = some F) :
    rgbToHexL (F.r : ℤ) (F.g : ℤ) (F.b : ℤ) = s := by
  simp only [isCanonicalHex, Bool.and_eq_true, decide_eq_true_eq] at hc
  obtain ⟨⟨hhead, hlen⟩, hall⟩ := hc
  obtain ⟨ds, rfl⟩ : ∃ ds, s = '#' :: ds := by
    cases s with
    | nil => simp at hhead
    | cons c cs =>
      simp only [List.head?_cons, Option.some.injEq] at hhead
      exact ⟨cs, by rw [hhead]⟩
  simp only [List.tail_cons] at hlen hall
  rcases ds with _ | ⟨d1, ds⟩; · simp at hlen
  rcases ds with _ | ⟨d2, ds⟩; · simp at hlen
  rcases ds with _ | ⟨d3, ds⟩; · simp at hlen
  rcases ds with _ | ⟨d4, ds⟩; · simp at hlen
  rcases ds with _ | ⟨d5, ds⟩; · simp at hlen
  rcases ds with _ | ⟨d6, ds⟩; · simp at hlen
  rcases ds with _ | ⟨d7, ds⟩
  swap
  · simp at hlen
  simp only [List.all_cons, List.all_nil, Bool.and_eq_true, and_true] at hall
  obtain ⟨l1, l2, l3, l4, l5, l6⟩ := hall
  have hv1 := lower_hex_val_le d1 l1
  have hv2 := lower_hex_val_le d2 l2
  have hv3 := lower_hex_val_le d3 l3
  have hv4 := lower_hex_val_le d4 l4
  have hv5 := lower_hex_val_le d5 l5
  have hv6 := lower_hex_val_le d6 l6
  rw [hexToRgbL_parse6 _ (by
        intro c hc
        simp only [List.mem_cons, List.not_mem_nil, or_false] at hc
        rcases hc with rfl | rfl | rfl | rfl | rfl | rfl
        · exact lower_hex_not_ws _ l1
        · exact lower_hex_not_ws _ l2
        · exact lower_hex_not_ws _ l3
        · exact lower_hex_not_ws _ l4
        · exact lower_hex_not_ws _ l5
        · exact lower_hex_not_ws _ l6)
      (by rfl)
      (by simp only [List.all_cons, List.all_nil, Bool.and_eq_true, and_true]
          exact ⟨lower_hex_isHex _ l1, lower_hex_isHex _ l2, lower_hex_isHex _ l3,
            lower_hex_isHex _ l4, lower_hex_isHex _ l5, lower_hex_isHex _ l6⟩)] at hp
  injection hp with hp
  subst hp
  simp only [parseHexNat, List.foldl_cons, List.foldl_nil, Nat.zero_mul, Nat.zero_add]
  rw [rgbToHexL_eq _ _ _ (by omega) (by omega) (by omega)]
  have e1 : (((((hexDigitVal d1 * 16 + hexDigitVal d2) * 16 + hexDigitVal d3) * 16 +
      hexDigitVal d4) * 16 + hexDigitVal d5) * 16 + hexDigitVal d6) / 65536 % 256 / 16 =
      hexDigitVal d1 := by omega
  have e2 : (((((hexDigitVal d1 * 16 + hexDigitVal d2) * 16 + hexDigitVal d3) * 16 +
      hexDigitVal d4) * 16 + hexDigitVal d5) * 16 + hexDigitVal d6) / 65536 % 256 % 16 =
      hexDigitVal d2 := by omega
  have e3 : (((((hexDigitVal d1 * 16 + hexDigitVal d2) * 16 + hexDigitVal d3) * 16 +
      hexDigitVal d4) * 16 + hexDigitVal d5) * 16 + hexDigitVal d6) / 256 % 256 / 16 =
      hexDigitVal d3 := by omega
  have e4 : (((((hexDigitVal d1 * 16 + hexDigitVal d2) * 16 + hexDigitVal d3) * 16 +
      hexDigitVal d4) * 16 + hexDigitVal d5) * 16 + hexDigitVal d6) / 256 % 256 % 16 =
      hexDigitVal d4 := by omega
  have e5 : (((((hexDigitVal d1 * 16 + hexDigitVal d2) * 16 + hexDigitVal d3) * 16 +
      hexDigitVal d4) * 16 + hexDigitVal d5) * 16 + hexDigitVal d6) % 256 / 16 =
      hexDigitVal d5 := by omega
  have e6 : (((((hexDigitVal d1 * 16 + hexDigitVal d2) * 16 + hexDigitVal d3) * 16 +
      hexDigitVal d4) * 16 + hexDigitVal d5) * 16 + hexDigitVal d6) % 256 % 16 =
      hexDigitVal d6 := by omega
  rw [e1, e2, e3, e4, e5, e6]
  rw [hexCharOf_hexDigitVal d1 l1, hexCharOf_hexDigitVal d2 l2, hexCharOf_hexDigitVal d3 l3,
      hexCharOf_hexDigitVal d4 l4, hexCharOf_hexDigitVal d5 l5, hexCharOf_hexDigitVal d6 l6]

/-! ### Claims C7, C8, C9 (the color-mixing claims) -/

/-- Claim C7: for all foreground and background strings that parse as valid hex
colors (`hexToRgb fg = some F`, `hexToRgb bg = some B`) and any ratio `t`,
`mixColors` computes each output channel as `round(bg + (fg - bg) * t)`;
in particular ratio `0` reproduces the background color exactly and ratio `1`
reproduces the foreground color exactly (as colors: the output is re-rendered
in canonical lowercase hex, so equality holds under `hexToRgb`). -/
theorem claimC7 (fg bg : String) (t : ℚ) (F B : Rgb)
    (hf : hexToRgb fg = some F) (hb : hexToRgb bg = some B) :
    mixColors fg bg t =
      rgbToHex (jsRound ((B.r : ℚ) + ((F.r : ℚ) - (B.r : ℚ)) * t))
               (jsRound ((B.g : ℚ) + ((F.g : ℚ) - (B.g : ℚ)) * t))
               (jsRound ((B.b : ℚ) + ((F.b : ℚ) - (B.b : ℚ)) * t)) ∧
    hexToRgb (mixColors fg bg 0) = some B ∧
    hexToRgb (mixColors fg bg 1) = some F := by
  obtain ⟨hbr, hbg, hbb⟩ := hexToRgb_le bg B hb
  obtain ⟨hfr, hfg, hfb⟩ := hexToRgb_le fg F hf
  refine ⟨?_, ?_, ?_⟩
  · rw [mixColors_eq_rgbToHex fg bg t F B hf hb,
        mixChannel_eq_jsRound, mixChannel_eq_jsRound, mixChannel_eq_jsRound]
    norm_num
  · rw [mixColors_eq_rgbToHex fg bg 0 F B hf hb]
    rw [mixChannel_eq_jsRound, mixChannel_eq_jsRound, mixChannel_eq_jsRound]
    have hz : ∀ x y : ℕ, ((x : ℤ) : ℚ) + (((y : ℤ) : ℚ) - ((x : ℤ) : ℚ)) * 0 =
        ((x : ℤ) : ℚ) := by
      intro x y; push_cast; ring
    rw [hz B.r F.r, hz B.g F.g, hz B.b F.b, jsRound_intCast, jsRound_intCast, jsRound_intCast]
    rw [hexToRgb_rgbToHex B.r B.g B.b hbr hbg hbb]
  · rw [mixColors_eq_rgbToHex fg bg 1 F B hf hb]
    rw [mixChannel_eq_jsRound, mixChannel_eq_jsRound, mixChannel_eq_jsRound]
    have ho : ∀ x y : ℕ, ((x : ℤ) : ℚ) + (((y : ℤ) : ℚ) - ((x : ℤ) : ℚ)) * 1 =
        ((y : ℤ) : ℚ) := by
      intro x y; push_cast; ring
    rw [ho B.r F.r, ho B.g F.g, ho B.b F.b, jsRound_intCast, jsRound_intCast, jsRound_intCast]
    rw [hexToRgb_rgbToHex F.r F.g F.b hfr hfg hfb]

/-- Witness for C7 at `fg = "#FF0000"`, `bg = "#000000"`, `t = 1/2`. -/
theorem claimC7_witness :
    hexToRgb "#FF0000" = some ⟨255, 0, 0⟩ ∧ hexToRgb "#000000" = some ⟨0, 0, 0⟩ ∧
    (mixColors "#FF0000" "#000000" (Rat.mk' 1 2) =
      rgbToHex (jsRound ((0 : ℚ) + (((255 : ℕ) : ℚ) - (0 : ℚ)) * (Rat.mk' 1 2)))
               (jsRound ((0 : ℚ) + (((0 : ℕ) : ℚ) - (0 : ℚ)) * (Rat.mk' 1 2)))
               (jsRound ((0 : ℚ) + (((0 : ℕ) : ℚ) - (0 : ℚ)) * (Rat.mk' 1 2))) ∧
     hexToRgb (mixColors "#FF0000" "#000000" 0) = some ⟨0, 0, 0⟩ ∧
     hexToRgb (mixColors "#FF0000" "#000000" 1) = some ⟨255, 0, 0⟩) := by
  refine ⟨by decide, by decide, ?_⟩
  have h := claimC7 "#FF0000" "#000000" (Rat.mk' 1 2) ⟨255, 0, 0⟩ ⟨0, 0, 0⟩
    (by decide) (by decide)
  simpa using h

/-- Claim C8: whenever either argument of `mixColors` fails hex parsing, the
foreground string is returned unchanged. -/
theorem claimC8 (fg bg : String) (t : ℚ)
    (h : hexToRgb fg = none ∨ hexToRgb bg = none) : mixColors fg bg t = fg := by
  unfold mixColors
  rcases h with h | h
  · rw [h]
  · rw [h]
    cases hexToRgb fg <;> rfl

/-- Witness for C8 at an unparseable foreground. -/
theorem claimC8_witness :
    hexToRgb "zz" = none ∧ mixColors "zz" "#FFFFFF" (Rat.mk' 1 2) = "zz" :=
  ⟨by decide, claimC8 "zz" "#FFFFFF" (Rat.mk' 1 2) (Or.inl (by decide))⟩

/-- Counterexample to claim C9 as stated: `"#AABBCC"` is a valid hex color,
but `mixColors "#AABBCC" "#AABBCC" (1/2)` returns the lowercase re-rendering
`"#aabbcc"`, which differs from the input string. -/
theorem claimC9_counterexample :
    hexToRgb "#AABBCC" ≠ none ∧
    mixColors "#AABBCC" "#AABBCC" (Rat.mk' 1 2) ≠ "#AABBCC" := by
  constructor <;> decide

/-- Claim C9 (amended): for every valid hex color `c` and every ratio `t`,
`mixColors c c t` denotes the same color as `c` (`hexToRgb`-equal); it equals
`c` as a string exactly when `c` is already in canonical form (a `#` followed
by six lowercase hex digits). -/
theorem claimC9 (c : String) (t : ℚ) (F : Rgb) (hc : hexToRgb c = some F) :
    hexToRgb (mixColors c c t) = hexToRgb c ∧
    (isCanonicalHex c.toList = true → mixColors c c t = c) := by
  obtain ⟨h1, h2, h3⟩ := hexToRgb_le c F hc
  have hmix : mixColors c c t = rgbToHex (F.r : ℤ) (F.g : ℤ) (F.b : ℤ) := by
    rw [mixColors_eq_rgbToHex c c t F F hc hc,
        mixChannel_self, mixChannel_self, mixChannel_self]
  constructor
  · rw [hmix, hexToRgb_rgbToHex F.r F.g F.b h1 h2 h3, hc]
  · intro hcanon
    rw [hmix]
    show String.mk (rgbToHexL (F.r : ℤ) (F.g : ℤ) (F.b : ℤ)) = c
    rw [rgbToHex_of_canonical c.toList F hcanon hc]
    rfl

/-- Witness for C9 (amended) at `c = "#aabbcc"`, `t = 1/2`. -/
theorem claimC9_witness :
    hexToRgb "#aabbcc" = some ⟨170, 187, 204⟩ ∧
    (hexToRgb (mixColors "#aabbcc" "#aabbcc" (Rat.mk' 1 2)) = hexToRgb "#aabbcc" ∧
     (isCanonicalHex "#aabbcc".toList = true →
       mixColors "#aabbcc" "#aabbcc" (Rat.mk' 1 2) = "#aabbcc")) :=
  ⟨by decide, claimC9 "#aabbcc" (Rat.mk' 1 2) ⟨170, 187, 204⟩ (by decide)⟩

theorem scanWith_fuel {step : List Char → Option (List Char × List Char)}
    (hs : ScanStep step) :
    ∀ fuel s, s.length ≤ fuel → scanWith step fuel s = scanWith step s.length s := by
  intro fuel
  induction fuel using Nat.strong_induction_on with
  | _ fuel ih =>
    intro s hlen
    match fuel, s with
    | 0, s =>
      have hnil : s = [] := List.eq_nil_of_length_eq_zero (Nat.le_zero.mp hlen)
      subst hnil
      rfl
    | f + 1, [] => rfl
    | f + 1, c :: cs =>
      show scanWith step (f + 1) (c :: cs) = scanWith step (c :: cs).length (c :: cs)
      simp only [List.length_cons, scanWith]
      cases hm : step (c :: cs) with
      | some pr =>
        obtain ⟨rep, rest⟩ := pr
        have hlt := hs _ _ _ hm
        simp only [List.length_cons] at hlt hlen
        dsimp only
        congr 1
        rw [ih f (by omega) rest (by omega), ih cs.length (by omega) rest (by omega)]
      | none =>
        simp only [List.length_cons] at hlen
        dsimp only
        congr 1
        rw [ih f (by omega) cs (by omega), ih cs.length (by omega) cs (by omega)]

theorem runScan_nil (step : List Char → Option (List Char × List Char)) :
    runScan step [] = [] := rfl

theorem runScan_match {step : List Char → Option (List Char × List Char)}
    (hs : ScanStep step) {s rep rest : List Char}
    (hm : step s = some (rep, rest)) : runScan step s = rep ++ runScan step rest := by
  have hlt := hs _ _ _ hm
  cases s with
  | nil => simp at hlt
  | cons c cs =>
    show scanWith step (c :: cs).length (c :: cs) = _
    simp only [List.length_cons, scanWith, hm]
    congr 1
    simp only [List.length_cons] at hlt
    exact scanWith_fuel hs cs.length rest (by omega)

theorem runScan_nomatch {step : List Char → Option (List Char × List Char)}
    {c : Char} {cs : List Char}
    (hm : step (c :: cs) = none) : runScan step (c :: cs) = c :: runScan step cs := by
  show scanWith step (c :: cs).length (c :: cs) = _
  simp only [List.length_cons, scanWith, hm]
  rfl

theorem runScan_id {step : List Char → Option (List Char × List Char)} {s : List Char}
    (hall : ∀ t ∈ s.tails, step t = none) : runScan step s = s := by
  induction s with
  | nil => rfl
  | cons c cs ih =>
    rw [runScan_nomatch (hall _ (by rw [List.tails_cons]; exact List.mem_cons_self _ _))]
    rw [ih (fun t ht => hall t (by rw [List.tails_cons]; exact List.mem_cons_of_mem _ ht))]

theorem collectWith_fuel {α : Type} {step : List Char → Option (α × List Char)}
    (hs : CollectStep step) :
    ∀ fuel s, s.length ≤ fuel → collectWith step fuel s = collectWith step s.length s := by
  intro fuel
  induction fuel using Nat.strong_induction_on with
  | _ fuel ih =>
    intro s hlen
    match fuel, s with
    | 0, s =>
      have hnil : s = [] := List.eq_nil_of_length_eq_zero (Nat.le_zero.mp hlen)
      subst hnil
      rfl
    | f + 1, [] => rfl
    | f + 1, c :: cs =>
      show collectWith step (f + 1) (c :: cs) = collectWith step (c :: cs).length (c :: cs)
      simp only [List.length_cons, collectWith]
      cases hm : step (c :: cs) with
      | some pr =>
        obtain ⟨a, rest⟩ := pr
        have hlt := hs _ _ _ hm
        simp only [List.length_cons] at hlt hlen
        dsimp only
        congr 1
        rw [ih f (by omega) rest (by omega), ih cs.length (by omega) rest (by omega)]
      | none =>
        simp only [List.length_cons] at hlen
        dsimp only
        rw [ih f (by omega) cs (by omega), ih cs.length (by omega) cs (by omega)]

theorem runCollect_nil {α : Type} (step : List Char → Option (α × List Char)) :
    runCollect step [] = [] := rfl

theorem runCollect_match {α : Type} {step : List Char → Option (α × List Char)}
    (hs : CollectStep step) {s rest : List Char} {a : α}
    (hm : step s = some (a, rest)) : runCollect step s = a :: runCollect step rest := by
  have hlt := hs _ _ _ hm
  cases s with
  | nil => simp at hlt
  | cons c cs =>
    show collectWith step (c :: cs).length (c :: cs) = _
    simp only [List.length_cons, collectWith, hm]
    congr 1
    simp only [List.length_cons] at hlt
    exact collectWith_fuel hs cs.length rest (by omega)

theorem runCollect_nomatch {α : Type} {step : List Char → Option (α × List Char)}
    {c : Char} {cs : List Char}
    (hm : step (c :: cs) = none) : runCollect step (c :: cs) = runCollect step cs := by
  show collectWith step (c :: cs).length (c :: cs) = _
  simp only [List.length_cons, collectWith, hm]
  rfl

theorem runCollect_none {α : Type} {step : List Char → Option (α × List Char)}
    {s : List Char}
    (hall : ∀ t ∈ s.tails, step t = none) : runCollect step s = [] := by
  induction s with
  | nil => rfl
  | cons c cs ih =>
    rw [runCollect_nomatch (hall _ (by rw [List.tails_cons]; exact List.mem_cons_self _ _))]
    exact ih (fun t ht => hall t (by rw [List.tails_cons]; exact List.mem_cons_of_mem _ ht))

/-! ### Consumption lemmas for the step functions -/

theorem takeWhile_dropWhile_length (p : Char → Bool) (l : List Char) :
    (l.takeWhile p).length + (l.dropWhile p).length = l.length := by
  rw [← List.length_append, List.takeWhile_append_dropWhile]

theorem head?_some_len {l : List Char} {c : Char} (h : l.head? = some c) :
    l.tail.length + 1 = l.length := by
  cases l with
  | nil => simp at h
  | cons x xs => simp

theorem head?_some_eq {l : List Char} {c : Char} (h : l.head? = some c) :
    l = c :: l.tail := by
  cases l with
  | nil => simp at h
  | cons x xs => simp at h; simp [h]

theorem fallbackScan_length : ∀ s r, fallbackScan s = some r → r.length < s.length := by
  intro s
  induction s with
  | nil => intro r h; simp [fallbackScan] at h
  | cons c cs ih =>
    intro r h
    simp only [fallbackScan] at h
    split at h
    · split at h
      · have := ih r h
        simp only [List.length_cons]
        omega
      · injection h with h
        subst h
        simp
    · have := ih r h
      simp only [List.length_cons]
      omega

theorem matchAfterName_length {t r : List Char} (h : matchAfterName t = some r) :
    r.length < t.length := by
  unfold matchAfterName at h
  split at h
  · rename_i hc
    have hd := head?_some_len hc
    have hlt := fallbackScan_length _ _ h
    have hdw := length_dropWhile_le isWs t
    omega
  · split at h
    · split at h
      · exact absurd h (by simp)
      · rename_i hnc1 hc2 hnc3
        injection h with h
        subst h
        have := head?_some_len hc2
        omega
    · exact absurd h (by simp)

theorem tryNames_length : ∀ ns s n rest, tryNames ns s = some (n, rest) →
    rest.length < s.length := by
  intro ns
  induction ns with
  | nil => intro s n rest h; simp [tryNames] at h
  | cons nm ns ih =>
    intro s n rest h
    simp only [tryNames] at h
    split at h
    · rename_i t hdl
      split at h
      · rename_i r2 hma
        injection h with h
        injection h with h1 h2
        subst h2
        have hlt := matchAfterName_length hma
        have hdll := dropLit_length _ _ _ hdl
        omega
      · exact ih s n rest h
    · exact ih s n rest h

theorem scanStep_tryVarMatch (vals : List (String × String)) :
    ScanStep (tryVarMatch vals) := by
  intro s rep rest h
  simp only [tryVarMatch] at h
  split at h
  · exact absurd h (by simp)
  · rename_i t hdl
    split at h
    · rename_i n r2 htn
      injection h with h
      injection h with h1 h2
      subst h2
      have hlt := tryNames_length _ _ _ _ htn
      have hdll := dropLit_length _ _ _ hdl
      have h4 : ("var(".toList).length = 4 := rfl
      omega
    · exact absurd h (by simp)

theorem matchStyleAttr_length {s : List Char} {q : Char} {v rest : List Char}
    (h : matchStyleAttr s = some (q, v, rest)) : rest.length < s.length := by
  simp only [matchStyleAttr] at h
  split at h
  · exact absurd h (by simp)
  · rename_i t hdl
    split at h
    · exact absurd h (by simp)
    · rename_i q0 hh
      split at h
      · split at h
        · rename_i c2 hu
          split at h
          · injection h with h
            injection h with h1 h23
            injection h23 with h2 h3
            subst h3
            have e1 := dropLit_length _ _ _ hdl
            have e2 := head?_some_len hh
            have e3 := head?_some_len hu
            have e4 := length_dropWhile_le (fun c => c != '"' && c != sq) t.tail
            have h6 : ("style=".toList).length = 6 := rfl
            omega
          · exact absurd h (by simp)
        · exact absurd h (by simp)
      · exact absurd h (by simp)

theorem splitAtClose_length : ∀ s pre post, splitAtClose s = some (pre, post) →
    post.length + 8 + pre.length = s.length := by
  intro s
  induction s with
  | nil => intro pre post h; simp [splitAtClose] at h
  | cons c cs ih =>
    intro pre post h
    simp only [splitAtClose] at h
    split at h
    · rename_i rest hdl
      injection h with h
      injection h with h1 h2
      subst h1
      subst h2
      have hd := dropLitCI_length _ _ _ hdl
      have h8 : ("</style>".toList).length = 8 := rfl
      simp only [List.length_nil, List.length_cons] at hd ⊢
      omega
    · split at h
      · rename_i pre2 post2 hsc
        injection h with h
        injection h with h1 h2
        subst h1
        subst h2
        have := ih _ _ hsc
        simp only [List.length_cons]
        omega
      · exact absurd h (by simp)

theorem matchStyleBlock_length {s content rest : List Char}
    (h : matchStyleBlock s = some (content, rest)) : rest.length < s.length := by
  simp only [matchStyleBlock] at h
  split at h
  · exact absurd h (by simp)
  · rename_i t hdl
    split at h
    · rename_i hh
      have e1 := dropLitCI_length _ _ _ hdl
      have h6 : ("<style".toList).length = 6 := rfl
      have e2 := head?_some_len hh
      have e3 := length_dropWhile_le (fun c => c != '>') t
      have e4 := splitAtClose_length _ _ _ h
      omega
    · exact absurd h (by simp)

theorem scanStep_tryAttrClean (replaced : List String) :
    ScanStep (tryAttrClean replaced) := by
  intro s rep rest h
  unfold tryAttrClean at h
  cases hm : matchStyleAttr s with
  | none => rw [hm] at h; exact absurd h (by simp)
  | some r =>
    rw [hm] at h
    obtain ⟨q, v, rest2⟩ := r
    simp only [Option.map_some'] at h
    injection h with h
    injection h with h1 h2
    subst h2
    exact matchStyleAttr_length hm

theorem scanStep_tryBlockClean (replaced : List String) :
    ScanStep (tryBlockClean replaced) := by
  intro s rep rest h
  unfold tryBlockClean at h
  cases hm : matchStyleBlock s with
  | none => rw [hm] at h; exact absurd h (by simp)
  | some r =>
    rw [hm] at h
    obtain ⟨content, rest2⟩ := r
    simp only [Option.map_some'] at h
    injection h with h
    injection h with h1 h2
    subst h2
    exact matchStyleBlock_length hm

theorem collectStep_styleAttr :
    CollectStep (fun s => (matchStyleAttr s).map (fun r => (r.2.1, r.2.2))) := by
  intro s a rest h
  simp only [] at h
  cases hm : matchStyleAttr s with
  | none => rw [hm] at h; exact absurd h (by simp)
  | some r =>
    rw [hm] at h
    obtain ⟨q, v, rest2⟩ := r
    simp only [Option.map_some'] at h
    injection h with h
    injection h with h1 h2
    subst h2
    exact matchStyleAttr_length hm

theorem matchInlineDecl_length {s : List Char} {p : String × String} {rest : List Char}
    (h : matchInlineDecl s = some (p, rest)) : rest.length < s.length := by
  simp only [matchInlineDecl] at h
  split at h
  · exact absurd h (by simp)
  · rename_i t hdl
    split at h
    · exact absurd h (by simp)
    · rename_i hname
      split at h
      · rename_i hcol
        split at h
        · exact absurd h (by simp)
        · rename_i hval
          injection h with h
          injection h with h1 h2
          subst h2
          have e1 := dropLit_length _ _ _ hdl
          have h2l : ("--".toList).length = 2 := rfl
          have e2 := takeWhile_dropWhile_length isWordChar t
          have e3 := head?_some_len hcol
          have e4 := takeWhile_dropWhile_length (fun c => c != ';')
            (t.dropWhile isWordChar).tail
          have e5 : 1 ≤ (t.takeWhile isWordChar).length := by
            rcases Nat.eq_zero_or_pos (t.takeWhile isWordChar).length with hz | hp
            · exact absurd (List.isEmpty_iff.mpr (List.length_eq_zero.mp hz)) hname
            · exact hp
          have e6 : 1 ≤ ((t.dropWhile isWordChar).tail.takeWhile (fun c => c != ';')).length := by
            rcases Nat.eq_zero_or_pos
              ((t.dropWhile isWordChar).tail.takeWhile (fun c => c != ';')).length with hz | hp
            · exact absurd (List.isEmpty_iff.mpr (List.length_eq_zero.mp hz)) hval
            · exact hp
          omega
      · exact absurd h (by simp)

theorem matchBlockDecl_length {s : List Char} {p : String × String} {rest : List Char}
    (h : matchBlockDecl s = some (p, rest)) : rest.length < s.length := by
  simp only [matchBlockDecl] at h
  split at h
  · exact absurd h (by simp)
  · rename_i t hdl
    split at h
    · exact absurd h (by simp)
    · rename_i hname
      split at h
      · rename_i hcol
        split at h
        · exact absurd h (by simp)
        · rename_i hval
          injection h with h
          injection h with h1 h2
          subst h2
          have e1 := dropLit_length _ _ _ hdl
          have h2l : ("--".toList).length = 2 := rfl
          have e2 := takeWhile_dropWhile_length isWordChar t
          have e2b := length_dropWhile_le isWs (t.dropWhile isWordChar)
          have e3 := head?_some_len hcol
          have e4 := takeWhile_dropWhile_length (fun c => c != ';')
            ((t.dropWhile isWordChar).dropWhile isWs).tail
          have e5 : 1 ≤ (t.takeWhile isWordChar).length := by
            rcases Nat.eq_zero_or_pos (t.takeWhile isWordChar).length with hz | hp
            · exact absurd (List.isEmpty_iff.mpr (List.length_eq_zero.mp hz)) hname
            · exact hp
          have e6 : 1 ≤ (((t.dropWhile isWordChar).dropWhile isWs).tail.takeWhile
              (fun c => c != ';')).length := by
            rcases Nat.eq_zero_or_pos (((t.dropWhile isWordChar).dropWhile isWs).tail.takeWhile
              (fun c => c != ';')).length with hz | hp
            · exact absurd (List.isEmpty_iff.mpr (List.length_eq_zero.mp hz)) hval
            · exact hp
          omega
      · exact absurd h (by simp)

theorem collectStep_inlineDecl : CollectStep matchInlineDecl :=
  fun _ _ _ h => matchInlineDecl_length h

theorem collectStep_blockDecl : CollectStep matchBlockDecl :=
  fun _ _ _ h => matchBlockDecl_length h

theorem matchRule_length {s : List Char} {r : CssRule} {rest : List Char}
    (h : matchRule s = some (r, rest)) : rest.length < s.length := by
  simp only [matchRule] at h
  split at h
  · exact absurd h (by simp)
  · rename_i hsel
    split at h
    · rename_i hob
      split at h
      · rename_i hcb
        injection h with h
        injection h with h1 h2
        subst h2
        have e1 := takeWhile_dropWhile_length (fun c => c != obr) s
        have e2 := head?_some_len hob
        have e3 := takeWhile_dropWhile_length (fun c => c != cbr)
          (s.dropWhile (fun c => c != obr)).tail
        have e4 := head?_some_len hcb
        have e5 : 1 ≤ (s.takeWhile (fun c => c != obr)).length := by
          rcases Nat.eq_zero_or_pos (s.takeWhile (fun c => c != obr)).length with hz | hp
          · exact absurd (List.isEmpty_iff.mpr (List.length_eq_zero.mp hz)) hsel
          · exact hp
        omega
      · exact absurd h (by simp)
    · exact absurd h (by simp)

theorem collectStep_rule : CollectStep matchRule :=
  fun _ _ _ h => matchRule_length h

theorem collectStep_styleBlock : CollectStep matchStyleBlock :=
  fun _ _ _ h => matchStyleBlock_length h

/-! ### Association-list and key-provenance lemmas for the resolver -/

theorem jsSet_mem : ∀ (l : List (String × String)) (k v : String) (p : String × String),
    p ∈ jsSet l k v → p ∈ l ∨ p = (k, v) := by
  intro l
  induction l with
  | nil =>
    intro k v p hp
    simp [jsSet] at hp
    exact Or.inr hp
  | cons q rest ih =>
    intro k v p hp
    obtain ⟨k0, v0⟩ := q
    simp only [jsSet] at hp
    split at hp
    · rcases List.mem_cons.mp hp with rfl | hp2
      · exact Or.inr rfl
      · exact Or.inl (List.mem_cons_of_mem _ hp2)
    · rcases List.mem_cons.mp hp with rfl | hp2
      · exact Or.inl (List.mem_cons_self _ _)
      · rcases ih k v p hp2 with h | h
        · exact Or.inl (List.mem_cons_of_mem _ h)
        · exact Or.inr h

theorem foldl_jsSet_mem :
    ∀ (items : List (String × String)) (init : List (String × String)) (p : String × String),
    p ∈ items.foldl (fun m q => jsSet m q.1 q.2) init → p ∈ init ∨ p ∈ items := by
  intro items
  induction items with
  | nil => intro init p hp; exact Or.inl hp
  | cons q items ih =>
    intro init p hp
    rcases ih (jsSet init q.1 q.2) p hp with h | h
    · rcases jsSet_mem init q.1 q.2 p h with h2 | h2
      · exact Or.inl h2
      · exact Or.inr (by rw [h2]; exact List.mem_cons_self _ _)
    · exact Or.inr (List.mem_cons_of_mem _ h)

theorem lookupStr_mem : ∀ (tbl : List (String × String)) (k v : String),
    lookupStr tbl k = some v → (k, v) ∈ tbl := by
  intro tbl
  induction tbl with
  | nil => intro k v h; simp [lookupStr] at h
  | cons q rest ih =>
    intro k v h
    obtain ⟨k0, v0⟩ := q
    simp only [lookupStr, List.lookup] at h
    split at h
    · rename_i hbeq
      injection h with h
      subst h
      have : k = k0 := by simpa using hbeq
      subst this
      exact List.mem_cons_self _ _
    · exact List.mem_cons_of_mem _ (ih k v h)

theorem lookupStr_none_of_keys {tbl : List (String × String)}
    (hk : ∀ p ∈ tbl, isDashedKey p.1 = true) {k : String}
    (h : isDashedKey k = false) : lookupStr tbl k = none := by
  induction tbl with
  | nil => rfl
  | cons q rest ih =>
    obtain ⟨k0, v0⟩ := q
    have hne : (k == k0) = false := by
      apply beq_false_of_ne
      intro he
      subst he
      exact absurd (hk _ (List.mem_cons_self _ _)) (by simp [h])
    simp only [lookupStr, List.lookup, hne]
    exact ih (fun p hp => hk p (List.mem_cons_of_mem _ hp))

theorem runCollect_mem_aux {α : Type} {step : List Char → Option (α × List Char)}
    (hs : CollectStep step) :
    ∀ n (s : List Char), s.length ≤ n → ∀ a ∈ runCollect step s,
      ∃ t rest, step t = some (a, rest) := by
  intro n
  induction n with
  | zero =>
    intro s hl a ha
    have : s = [] := List.eq_nil_of_length_eq_zero (Nat.le_zero.mp hl)
    subst this
    simp [runCollect_nil] at ha
  | succ n ih =>
    intro s hl a ha
    cases s with
    | nil => simp [runCollect_nil] at ha
    | cons c cs =>
      cases hm : step (c :: cs) with
      | some pr =>
        obtain ⟨a0, rest⟩ := pr
        rw [runCollect_match hs hm] at ha
        rcases List.mem_cons.mp ha with rfl | ha2
        · exact ⟨_, _, hm⟩
        · have hlt := hs _ _ _ hm
          simp only [List.length_cons] at hlt hl
          exact ih rest (by omega) a ha2
      | none =>
        rw [runCollect_nomatch hm] at ha
        simp only [List.length_cons] at hl
        exact ih cs (by omega) a ha

/-- Every collected item is produced by the step function somewhere. -/
theorem runCollect_mem {α : Type} {step : List Char → Option (α × List Char)}
    (hs : CollectStep step) {s : List Char} {a : α} (ha : a ∈ runCollect step s) :
    ∃ t rest, step t = some (a, rest) :=
  runCollect_mem_aux hs s.length s (le_refl _) a ha

theorem matchInlineDecl_key {s : List Char} {k v : String} {rest : List Char}
    (h : matchInlineDecl s = some ((k, v), rest)) : isDashedKey k = true := by
  simp only [matchInlineDecl] at h
  split at h
  · exact absurd h (by simp)
  · split at h
    · exact absurd h (by simp)
    · split at h
      · split at h
        · exact absurd h (by simp)
        · injection h with h
          injection h with h1 h2
          injection h1 with h1a h1b
          subst h1a
          rfl
      · exact absurd h (by simp)

theorem matchBlockDecl_key {s : List Char} {k v : String} {rest : List Char}
    (h : matchBlockDecl s = some ((k, v), rest)) : isDashedKey k = true := by
  simp only [matchBlockDecl] at h
  split at h
  · exact absurd h (by simp)
  · split at h
    · exact absurd h (by simp)
    · split at h
      · split at h
        · exact absurd h (by simp)
        · injection h with h
          injection h with h1 h2
          injection h1 with h1a h1b
          subst h1a
          rfl
      · exact absurd h (by simp)

theorem extractInline_keys (svg : List Char) :
    ∀ p ∈ extractInline svg, isDashedKey p.1 = true := by
  unfold extractInline
  have main : ∀ (vs : List (List Char)) (acc : List (String × String)),
      (∀ p ∈ acc, isDashedKey p.1 = true) →
      ∀ p ∈ vs.foldl
        (fun acc v => (runCollect matchInlineDecl v).foldl (fun m q => jsSet m q.1 q.2) acc)
        acc, isDashedKey p.1 = true := by
    intro vs
    induction vs with
    | nil => intro acc hacc p hp; exact hacc p hp
    | cons v vs ih =>
      intro acc hacc p hp
      refine ih _ ?_ p hp
      intro q hq
      rcases foldl_jsSet_mem _ _ _ hq with h | h
      · exact hacc q h
      · obtain ⟨t, rest, hstep⟩ := runCollect_mem collectStep_inlineDecl h
        obtain ⟨k2, v2⟩ := q
        exact matchInlineDecl_key hstep
  exact main _ [] (by intro p hp; simp at hp)

theorem matchRule_decl_keys {s : List Char} {r : CssRule} {rest : List Char}
    (h : matchRule s = some (r, rest)) :
    ∀ p ∈ r.declarations, isDashedKey p.1 = true := by
  simp only [matchRule] at h
  split at h
  · exact absurd h (by simp)
  · split at h
    · split at h
      · injection h with h
        injection h with h1 h2
        subst h1
        intro p hp
        simp only at hp
        rcases foldl_jsSet_mem _ _ _ hp with h3 | h3
        · simp at h3
        · obtain ⟨t, rest2, hstep⟩ := runCollect_mem collectStep_blockDecl h3
          obtain ⟨k2, v2⟩ := p
          exact matchBlockDecl_key hstep
      · exact absurd h (by simp)
    · exact absurd h (by simp)

theorem parseCssRules_decl_keys {content : List Char} {r : CssRule}
    (hr : r ∈ parseCssRules content) :
    ∀ p ∈ r.declarations, isDashedKey p.1 = true := by
  unfold parseCssRules at hr
  have hr2 := List.mem_of_mem_filter hr
  obtain ⟨t, rest, hstep⟩ := runCollect_mem collectStep_rule hr2
  exact matchRule_decl_keys hstep

theorem partitionRules_global_keys (rules : List CssRule) (init : CssVars)
    (hrules : ∀ r ∈ rules, ∀ p ∈ r.declarations, isDashedKey p.1 = true)
    (hinit : ∀ p ∈ init.global, isDashedKey p.1 = true) :
    ∀ p ∈ (partitionRules rules init).global, isDashedKey p.1 = true := by
  induction rules generalizing init with
  | nil => intro p hp; exact hinit p hp
  | cons r rules ih =>
    intro p hp
    unfold partitionRules at hp
    simp only [List.foldl_cons] at hp
    refine ih _
      (fun r2 h2 => hrules r2 (List.mem_cons_of_mem _ h2)) ?_ p hp
    intro q hq
    split at hq
    · simp only at hq
      rcases foldl_jsSet_mem _ _ _ hq with h3 | h3
      · exact hinit q h3
      · exact hrules r (List.mem_cons_self _ _) q h3
    · exact hinit q hq

theorem partitionRules_inline (rules : List CssRule) (init : CssVars) :
    (partitionRules rules init).inline = init.inline := by
  induction rules generalizing init with
  | nil => rfl
  | cons r rules ih =>
    show (partitionRules rules _).inline = _
    rw [ih]
    dsimp only
    split <;> rfl

theorem extractCssVars_inline (svg : List Char) :
    (extractCssVars svg).inline = extractInline svg := by
  unfold extractCssVars
  rw [partitionRules_inline]

theorem extractCssVars_inline_keys (svg : List Char) :
    ∀ p ∈ (extractCssVars svg).inline, isDashedKey p.1 = true := by
  rw [extractCssVars_inline]
  exact extractInline_keys svg

theorem extractCssVars_global_keys (svg : List Char) :
    ∀ p ∈ (extractCssVars svg).global, isDashedKey p.1 = true := by
  unfold extractCssVars
  refine partitionRules_global_keys _ _ ?_ ?_
  · intro r hr
    rw [List.mem_flatten] at hr
    obtain ⟨rs, hrs, hr2⟩ := hr
    rw [List.mem_map] at hrs
    obtain ⟨content, _, rfl⟩ := hrs
    exact parseCssRules_decl_keys hr2
  · intro p hp
    simp at hp

theorem orTruthy_eq_getD {o : Option String} {d : String}
    (h : ∀ v, o = some v → v ≠ "") : orTruthy o d = o.getD d := by
  cases o with
  | none => rfl
  | some v => simp [orTruthy, h v rfl]

theorem resolve_slot_eq (cv : CssVars) (colors : List (String × String))
    (hc : ∀ p ∈ colors, p.2 ≠ "")
    (hi : ∀ p ∈ cv.inline, p.2 ≠ "") (hg : ∀ p ∈ cv.global, p.2 ≠ "")
    (hik : ∀ p ∈ cv.inline, isDashedKey p.1 = true)
    (hgk : ∀ p ∈ cv.global, isDashedKey p.1 = true)
    (x : String) (hx : isDashedKey x = false) (d : String) :
    orTruthy (effVar cv colors x) (orTruthy (effVar cv colors ("--" ++ x)) d) =
      specResolve cv colors x d := by
  have hbare : effVar cv colors x = lookupStr colors x := by
    unfold effVar
    rw [lookupStr_none_of_keys hik hx, lookupStr_none_of_keys hgk hx]
    cases lookupStr colors x <;> rfl
  have h1 : ∀ v, lookupStr colors x = some v → v ≠ "" :=
    fun v hv => hc _ (lookupStr_mem _ _ _ hv)
  have h2 : ∀ v, effVar cv colors ("--" ++ x) = some v → v ≠ "" := by
    intro v hv
    unfold effVar at hv
    cases hco : lookupStr colors ("--" ++ x) with
    | some w =>
      rw [hco] at hv
      have hv2 : some w = some v := hv
      injection hv2 with he
      subst he
      exact hc _ (lookupStr_mem _ _ _ hco)
    | none =>
      rw [hco] at hv
      have hv2 : (lookupStr cv.inline ("--" ++ x) <|>
          lookupStr cv.global ("--" ++ x)) = some v := hv
      cases hin : lookupStr cv.inline ("--" ++ x) with
      | some w =>
        rw [hin] at hv2
        have hv3 : some w = some v := hv2
        injection hv3 with he
        subst he
        exact hi _ (lookupStr_mem _ _ _ hin)
      | none =>
        rw [hin] at hv2
        have hv3 : lookupStr cv.global ("--" ++ x) = some v := hv2
        exact hg _ (lookupStr_mem _ _ _ hv3)
  rw [hbare, orTruthy_eq_getD h2, orTruthy_eq_getD h1]
  unfold specResolve effVar
  cases lookupStr colors x <;>
    cases lookupStr colors ("--" ++ x) <;>
      cases lookupStr cv.inline ("--" ++ x) <;>
        cases lookupStr cv.global ("--" ++ x) <;> rfl

/-- Claim C1 (amended): provided every override value and every extracted
inline/global declaration value is a non-empty string, each public semantic
slot `--x` of the palette computed inside `flattenSvg` resolves to the first
available value in exactly the claimed order: bare override `x`, dashed
override `--x`, inline declaration, global (style-block) declaration, then the
built-in default (`#FFFFFF`/`#27272A` for bg/fg, `mixColors` with ratios
0.3, 0.5, 0.4, 0.03, 0.2 for line/accent/muted/surface/border).  In
particular a caller override beats any document declaration, and an inline
declaration beats a style-block one. -/
theorem claimC1 (svg : List Char) (colors : List (String × String))
    (hc : ∀ p ∈ colors, p.2 ≠ "")
    (hi : ∀ p ∈ (extractCssVars svg).inline, p.2 ≠ "")
    (hg : ∀ p ∈ (extractCssVars svg).global, p.2 ≠ "") :
    ∀ x ∈ publicNames,
      lookupStr (computePalette (extractCssVars svg) colors) ("--" ++ x) =
        some (specResolve (extractCssVars svg) colors x
          (specDefault (extractCssVars svg) colors x)) := by
  intro x hx
  have hik := extractCssVars_inline_keys svg
  have hgk := extractCssVars_global_keys svg
  have hres := fun (y : String) (hy : isDashedKey y = false) (d : String) =>
    resolve_slot_eq (extractCssVars svg) colors hc hi hg hik hgk y hy d
  have hbg := hres "bg" (by decide) "#FFFFFF"
  have hfg := hres "fg" (by decide) "#27272A"
  fin_cases hx
  · have hlk : lookupStr (computePalette (extractCssVars svg) colors) ("--" ++ "bg") =
        some (orTruthy (effVar (extractCssVars svg) colors "bg")
          (orTruthy (effVar (extractCssVars svg) colors ("--" ++ "bg")) "#FFFFFF")) := rfl
    rw [hlk, hbg]
    rfl
  · have hlk : lookupStr (computePalette (extractCssVars svg) colors) ("--" ++ "fg") =
        some (orTruthy (effVar (extractCssVars svg) colors "fg")
          (orTruthy (effVar (extractCssVars svg) colors ("--" ++ "fg")) "#27272A")) := rfl
    rw [hlk, hfg]
    rfl
  · have hlk : lookupStr (computePalette (extractCssVars svg) colors) ("--" ++ "line") =
        some (orTruthy (effVar (extractCssVars svg) colors "line")
          (orTruthy (effVar (extractCssVars svg) colors ("--" ++ "line"))
            (mixColors
              (orTruthy (effVar (extractCssVars svg) colors "fg")
                (orTruthy (effVar (extractCssVars svg) colors ("--" ++ "fg")) "#27272A"))
              (orTruthy (effVar (extractCssVars svg) colors "bg")
                (orTruthy (effVar (extractCssVars svg) colors ("--" ++ "bg")) "#FFFFFF"))
              q03))) := rfl
    rw [hlk, hbg, hfg, hres "line" (by decide) _]
    rfl
  · have hlk : lookupStr (computePalette (extractCssVars svg) colors) ("--" ++ "accent") =
        some (orTruthy (effVar (extractCssVars svg) colors "accent")
          (orTruthy (effVar (extractCssVars svg) colors ("--" ++ "accent"))
            (mixColors
              (orTruthy (effVar (extractCssVars svg) colors "fg")
                (orTruthy (effVar (extractCssVars svg) colors ("--" ++ "fg")) "#27272A"))
              (orTruthy (effVar (extractCssVars svg) colors "bg")
                (orTruthy (effVar (extractCssVars svg) colors ("--" ++ "bg")) "#FFFFFF"))
              q05))) := rfl
    rw [hlk, hbg, hfg, hres "accent" (by decide) _]
    rfl
  · have hlk : lookupStr (computePalette (extractCssVars svg) colors) ("--" ++ "muted") =
        some (orTruthy (effVar (extractCssVars svg) colors "muted")
          (orTruthy (effVar (extractCssVars svg) colors ("--" ++ "muted"))
            (mixColors
              (orTruthy (effVar (extractCssVars svg) colors "fg")
                (orTruthy (effVar (extractCssVars svg) colors ("--" ++ "fg")) "#27272A"))
              (orTruthy (effVar (extractCssVars svg) colors "bg")
                (orTruthy (effVar (extractCssVars svg) colors ("--" ++ "bg")) "#FFFFFF"))
              q04))) := rfl
    rw [hlk, hbg, hfg, hres "muted" (by decide) _]
    rfl
  · have hlk : lookupStr (computePalette (extractCssVars svg) colors) ("--" ++ "surface") =
        some (orTruthy (effVar (extractCssVars svg) colors "surface")
          (orTruthy (effVar (extractCssVars svg) colors ("--" ++ "surface"))
            (mixColors
              (orTruthy (effVar (extractCssVars svg) colors "fg")
                (orTruthy (effVar (extractCssVars svg) colors ("--" ++ "fg")) "#27272A"))
              (orTruthy (effVar (extractCssVars svg) colors "bg")
                (orTruthy (effVar (extractCssVars svg) colors ("--" ++ "bg")) "#FFFFFF"))
              q003))) := rfl
    rw [hlk, hbg, hfg, hres "surface" (by decide) _]
    rfl
  · have hlk : lookupStr (computePalette (extractCssVars svg) colors) ("--" ++ "border") =
        some (orTruthy (effVar (extractCssVars svg) colors "border")
          (orTruthy (effVar (extractCssVars svg) colors ("--" ++ "border"))
            (mixColors
              (orTruthy (effVar (extractCssVars svg) colors "fg")
                (orTruthy (effVar (extractCssVars svg) colors ("--" ++ "fg")) "#27272A"))
              (orTruthy (effVar (extractCssVars svg) colors "bg")
                (orTruthy (effVar (extractCssVars svg) colors ("--" ++ "bg")) "#FFFFFF"))
              q02))) := rfl
    rw [hlk, hbg, hfg, hres "border" (by decide) _]
    rfl

/-- Counterexample to claim C1 as stated: the document declares `--bg` inline
with the (legitimately extractable) empty value, the claimed "first available
value" is that empty string, but the code's `||` chain treats the empty string
as falsy and falls through to the built-in default `#FFFFFF`. -/
theorem claimC1_counterexample :
    lookupStr (extractCssVars (("<a style=\"--bg: ;\"/>").toList)).inline "--bg" = some "" ∧
    specResolve (extractCssVars (("<a style=\"--bg: ;\"/>").toList)) [] "bg"
      (specDefault (extractCssVars (("<a style=\"--bg: ;\"/>").toList)) [] "bg") = "" ∧
    lookupStr (computePalette (extractCssVars (("<a style=\"--bg: ;\"/>").toList)) [])
      "--bg" = some "#FFFFFF" ∧
    ("#FFFFFF" : String) ≠ "" := by
  refine ⟨by decide, by decide, by decide, by decide⟩

/-- Witness for C1 (amended) at a document with one inline declaration and a
bare-name override. -/
theorem claimC1_witness :
    (∀ p ∈ [("bg", "#222222")], Prod.snd p ≠ "") ∧
    (∀ p ∈ (extractCssVars (("<a style=\"--fg:#111111\"/>").toList)).inline, p.2 ≠ "") ∧
    (∀ p ∈ (extractCssVars (("<a style=\"--fg:#111111\"/>").toList)).global, p.2 ≠ "") ∧
    lookupStr (computePalette (extractCssVars (("<a style=\"--fg:#111111\"/>").toList))
        [("bg", "#222222")]) ("--" ++ "fg") =
      some (specResolve (extractCssVars (("<a style=\"--fg:#111111\"/>").toList))
        [("bg", "#222222")] "fg"
        (specDefault (extractCssVars (("<a style=\"--fg:#111111\"/>").toList))
          [("bg", "#222222")] "fg")) :=
  ⟨by decide, by decide, by decide,
    claimC1 (("<a style=\"--fg:#111111\"/>").toList) [("bg", "#222222")]
      (by decide) (by decide) (by decide) "fg" (by decide)⟩

/-! ### Claim C3: palette validity -/

theorem rat_nonneg_of_num {t : ℚ} (h : 0 ≤ t.num) : 0 ≤ t := Rat.num_nonneg.mp h

theorem rat_le_one_of_num_le_den {t : ℚ} (h : t.num ≤ (t.den : ℤ)) : t ≤ 1 := by
  rw [← Rat.num_div_den t]
  rw [div_le_one (by exact_mod_cast t.pos)]
  exact_mod_cast h

theorem mixChannel_bound {f b : ℤ} (hf0 : 0 ≤ f) (hf : f ≤ 255) (hb0 : 0 ≤ b)
    (hbb : b ≤ 255) {t : ℚ} (h0 : 0 ≤ t) (h1 : t ≤ 1) :
    0 ≤ mixChannel f b t ∧ mixChannel f b t ≤ 255 := by
  rw [mixChannel_eq_jsRound]
  unfold jsRound
  have hfQ0 : (0 : ℚ) ≤ (f : ℚ) := by exact_mod_cast hf0
  have hfQ : (f : ℚ) ≤ 255 := by exact_mod_cast hf
  have hbQ0 : (0 : ℚ) ≤ (b : ℚ) := by exact_mod_cast hb0
  have hbQ : (b : ℚ) ≤ 255 := by exact_mod_cast hbb
  have hql : (0 : ℚ) ≤ (b : ℚ) + ((f : ℚ) - (b : ℚ)) * t := by
    nlinarith [mul_nonneg hbQ0 (by linarith : (0 : ℚ) ≤ 1 - t), mul_nonneg hfQ0 h0]
  have hqu : (b : ℚ) + ((f : ℚ) - (b : ℚ)) * t ≤ 255 := by
    nlinarith [mul_nonneg (by linarith : (0 : ℚ) ≤ 255 - (b : ℚ))
        (by linarith : (0 : ℚ) ≤ 1 - t),
      mul_nonneg (by linarith : (0 : ℚ) ≤ 255 - (f : ℚ)) h0]
  constructor
  · exact Int.floor_nonneg.mpr (by linarith)
  · have hlt : (b : ℚ) + ((f : ℚ) - (b : ℚ)) * t + 1 / 2 < ((256 : ℤ) : ℚ) := by
      push_cast
      linarith
    have := Int.floor_lt.mpr hlt
    omega

theorem mixColors_hexToRgb {fg bg : String} {F B : Rgb}
    (hf : hexToRgb fg = some F) (hb : hexToRgb bg = some B) {t : ℚ}
    (h0 : 0 ≤ t) (h1 : t ≤ 1) :
    hexToRgb (mixColors fg bg t) =
      some ⟨(mixChannel (F.r : ℤ) (B.r : ℤ) t).toNat,
            (mixChannel (F.g : ℤ) (B.g : ℤ) t).toNat,
            (mixChannel (F.b : ℤ) (B.b : ℤ) t).toNat⟩ := by
  obtain ⟨hfr, hfg2, hfb⟩ := hexToRgb_le fg F hf
  obtain ⟨hbr, hbg2, hbb⟩ := hexToRgb_le bg B hb
  rw [mixColors_eq_rgbToHex fg bg t F B hf hb]
  obtain ⟨r0, r1⟩ := @mixChannel_bound (F.r : ℤ) (B.r : ℤ)
    (by positivity) (by exact_mod_cast hfr) (by positivity) (by exact_mod_cast hbr) t h0 h1
  obtain ⟨g0, g1⟩ := @mixChannel_bound (F.g : ℤ) (B.g : ℤ)
    (by positivity) (by exact_mod_cast hfg2) (by positivity) (by exact_mod_cast hbg2) t h0 h1
  obtain ⟨b0, b1⟩ := @mixChannel_bound (F.b : ℤ) (B.b : ℤ)
    (by positivity) (by exact_mod_cast hfb) (by positivity) (by exact_mod_cast hbb) t h0 h1
  rw [show mixChannel ((F.r : ℤ)) ((B.r : ℤ)) t =
        ((mixChannel ((F.r : ℤ)) ((B.r : ℤ)) t).toNat : ℤ) from (Int.toNat_of_nonneg r0).symm,
      show mixChannel ((F.g : ℤ)) ((B.g : ℤ)) t =
        ((mixChannel ((F.g : ℤ)) ((B.g : ℤ)) t).toNat : ℤ) from (Int.toNat_of_nonneg g0).symm,
      show mixChannel ((F.b : ℤ)) ((B.b : ℤ)) t =
        ((mixChannel ((F.b : ℤ)) ((B.b : ℤ)) t).toNat : ℤ) from (Int.toNat_of_nonneg b0).symm]
  exact hexToRgb_rgbToHex _ _ _ (by omega) (by omega) (by omega)

/-- Values produced by `effVar` all come from one of the three tables. -/
theorem effVar_values {cv : CssVars} {colors : List (String × String)}
    {P : String → Prop}
    (hc : ∀ p ∈ colors, P p.2) (hi : ∀ p ∈ cv.inline, P p.2)
    (hg : ∀ p ∈ cv.global, P p.2) :
    ∀ k v, effVar cv colors k = some v → P v := by
  intro k v hv
  unfold effVar at hv
  cases hco : lookupStr colors k with
  | some w =>
    rw [hco] at hv
    have hv2 : some w = some v := hv
    injection hv2 with he
    subst he
    exact hc _ (lookupStr_mem _ _ _ hco)
  | none =>
    rw [hco] at hv
    have hv2 : (lookupStr cv.inline k <|> lookupStr cv.global k) = some v := hv
    cases hin : lookupStr cv.inline k with
    | some w =>
      rw [hin] at hv2
      have hv3 : some w = some v := hv2
      injection hv3 with he
      subst he
      exact hi _ (lookupStr_mem _ _ _ hin)
    | none =>
      rw [hin] at hv2
      have hv3 : lookupStr cv.global k = some v := hv2
      exact hg _ (lookupStr_mem _ _ _ hv3)

/-- An `orTruthy` chain value satisfies `P` whenever present table values and
the default do. -/
theorem orTruthy_values {o : Option String} {d : String} {P : String → Prop}
    (ho : ∀ v, o = some v → P v) (hd : P d) : P (orTruthy o d) := by
  cases o with
  | none => exact hd
  | some v =>
    by_cases hv : v = ""
    · simpa [orTruthy, hv] using hd
    · simpa [orTruthy, hv] using ho v rfl

/-- Claim C3 (amended): the palette is always fully populated — the 19 slots
(7 public, 12 internal) are all bound, in source key order — and, provided
every override value and every extracted declaration value itself parses via
`hexToRgb`, every slot's value parses via `hexToRgb`.  (As stated the claim is
false: default and declared values are used verbatim, so slots may hold
uppercase (`#FFFFFF`), 3-digit, or unprefixed hex rather than 6-digit
lowercase `#`-hex; only `mixColors`-derived values are canonical.) -/
theorem claimC3 (svg : List Char) (colors : List (String × String))
    (hc : ∀ p ∈ colors, hexToRgb p.2 ≠ none)
    (hi : ∀ p ∈ (extractCssVars svg).inline, hexToRgb p.2 ≠ none)
    (hg : ∀ p ∈ (extractCssVars svg).global, hexToRgb p.2 ≠ none) :
    (computePalette (extractCssVars svg) colors).map Prod.fst = computedNames ∧
    ∀ n ∈ computedNames, ∃ v,
      lookupStr (computePalette (extractCssVars svg) colors) n = some v ∧
        hexToRgb v ≠ none := by
  have heff : ∀ k v, effVar (extractCssVars svg) colors k = some v → hexToRgb v ≠ none :=
    effVar_values hc hi hg
  have hres : ∀ (x : String) (d : String), hexToRgb d ≠ none →
      hexToRgb (orTruthy (effVar (extractCssVars svg) colors x)
        (orTruthy (effVar (extractCssVars svg) colors ("--" ++ x)) d)) ≠ none := by
    intro x d hd
    exact orTruthy_values (fun v hv => heff _ v hv)
      (orTruthy_values (fun v hv => heff _ v hv) hd)
  have hbg := hres "bg" "#FFFFFF" (by decide)
  have hfg := hres "fg" "#27272A" (by decide)
  obtain ⟨B, hB⟩ := Option.ne_none_iff_exists'.mp hbg
  obtain ⟨F, hF⟩ := Option.ne_none_iff_exists'.mp hfg
  have hmix : ∀ t : ℚ, 0 ≤ t.num → t.num ≤ (t.den : ℤ) →
      hexToRgb (mixColors
        (orTruthy (effVar (extractCssVars svg) colors "fg")
          (orTruthy (effVar (extractCssVars svg) colors ("--" ++ "fg")) "#27272A"))
        (orTruthy (effVar (extractCssVars svg) colors "bg")
          (orTruthy (effVar (extractCssVars svg) colors ("--" ++ "bg")) "#FFFFFF"))
        t) ≠ none := by
    intro t h0 h1
    rw [mixColors_hexToRgb hF hB (rat_nonneg_of_num h0) (rat_le_one_of_num_le_den h1)]
    simp
  have hder : ∀ (x : String) (t : ℚ), 0 ≤ t.num → t.num ≤ (t.den : ℤ) →
      hexToRgb (orTruthy (effVar (extractCssVars svg) colors x)
        (orTruthy (effVar (extractCssVars svg) colors ("--" ++ x))
          (mixColors
            (orTruthy (effVar (extractCssVars svg) colors "fg")
              (orTruthy (effVar (extractCssVars svg) colors ("--" ++ "fg")) "#27272A"))
            (orTruthy (effVar (extractCssVars svg) colors "bg")
              (orTruthy (effVar (extractCssVars svg) colors ("--" ++ "bg")) "#FFFFFF"))
            t))) ≠ none :=
    fun x t h0 h1 => hres x _ (hmix t h0 h1)
  refine ⟨rfl, ?_⟩
  intro n hn
  fin_cases hn
  · exact ⟨_, rfl, hbg⟩
  · exact ⟨_, rfl, hfg⟩
  · exact ⟨_, rfl, hder "line" q03 (by decide) (by decide)⟩
  · exact ⟨_, rfl, hder "accent" q05 (by decide) (by decide)⟩
  · exact ⟨_, rfl, hder "muted" q04 (by decide) (by decide)⟩
  · exact ⟨_, rfl, hder "surface" q003 (by decide) (by decide)⟩
  · exact ⟨_, rfl, hder "border" q02 (by decide) (by decide)⟩
  · exact ⟨_, rfl, hfg⟩
  · exact ⟨_, rfl, hder "muted" q04 (by decide) (by decide)⟩
  · exact ⟨_, rfl, hder "muted" q04 (by decide) (by decide)⟩
  · exact ⟨_, rfl, hmix q025 (by decide) (by decide)⟩
  · exact ⟨_, rfl, hder "line" q03 (by decide) (by decide)⟩
  · exact ⟨_, rfl, hder "accent" q05 (by decide) (by decide)⟩
  · exact ⟨_, rfl, hder "surface" q003 (by decide) (by decide)⟩
  · exact ⟨_, rfl, hder "border" q02 (by decide) (by decide)⟩
  · exact ⟨_, rfl, hbg⟩
  · exact ⟨_, rfl, hmix q005 (by decide) (by decide)⟩
  · exact ⟨_, rfl, hmix q012 (by decide) (by decide)⟩
  · exact ⟨_, rfl, hmix q01 (by decide) (by decide)⟩

/-- Counterexample to claim C3 as stated: with an empty document and no
overrides, the `--bg` slot holds the verbatim default `#FFFFFF`, which is not
a lowercase hex string. -/
theorem claimC3_counterexample :
    lookupStr (computePalette (extractCssVars []) []) "--bg" = some "#FFFFFF" ∧
    isCanonicalHex ("#FFFFFF").toList = false := by
  constructor <;> decide

/-- Witness for C3 (amended) at a document with one declaration and one
override. -/
theorem claimC3_witness :
    (∀ p ∈ [("fg", "#102030")], hexToRgb (Prod.snd p) ≠ none) ∧
    (∀ p ∈ (extractCssVars (("<a style=\"--bg:#abc\"/>").toList)).inline,
      hexToRgb p.2 ≠ none) ∧
    (∀ p ∈ (extractCssVars (("<a style=\"--bg:#abc\"/>").toList)).global,
      hexToRgb p.2 ≠ none) ∧
    (computePalette (extractCssVars (("<a style=\"--bg:#abc\"/>").toList))
        [("fg", "#102030")]).map Prod.fst = computedNames ∧
    (∃ v, lookupStr (computePalette (extractCssVars (("<a style=\"--bg:#abc\"/>").toList))
        [("fg", "#102030")]) "--line" = some v ∧ hexToRgb v ≠ none) :=
  ⟨by decide, by decide, by decide,
    (claimC3 (("<a style=\"--bg:#abc\"/>").toList) [("fg", "#102030")]
      (by decide) (by decide) (by decide)).1,
    (claimC3 (("<a style=\"--bg:#abc\"/>").toList) [("fg", "#102030")]
      (by decide) (by decide) (by decide)).2 "--line" (by decide)⟩

/-! ### Claim C4: global/scoped partition of style-block rules -/

/-- Counterexample to claim C4 as stated: a rule with the bare selector
`root` (no colon) is claimed to contribute to the global table, but the
source's test `/^(::?root|html|body|svg|\*)$/i` requires at least one colon,
so the rule lands in `scoped` and its declaration never reaches `global`. -/
theorem claimC4_counterexample :
    (extractCssVars (("<style>root\x7b--bg:#fff\x7d</style>").toList)).global = [] ∧
    (extractCssVars (("<style>root\x7b--bg:#fff\x7d</style>").toList)).«scoped» =
      [⟨("root").toList, [("--bg", "#fff")]⟩] := by
  constructor <;> decide

/-- Structure of the rule partition: scoped collects exactly the non-global
rules in order, global folds the declaration maps of the global rules. -/
theorem partitionRules_spec (rules : List CssRule) (init : CssVars) :
    (partitionRules rules init).«scoped» =
      init.«scoped» ++ rules.filter (fun r => !(isGlobalSelector r.selector)) ∧
    (partitionRules rules init).global =
      (rules.filter (fun r => isGlobalSelector r.selector)).foldl
        (fun g r => r.declarations.foldl (fun m p => jsSet m p.1 p.2) g) init.global := by
  induction rules generalizing init with
  | nil => constructor <;> simp [partitionRules]
  | cons r rules ih =>
    have hstep : partitionRules (r :: rules) init = partitionRules rules
        (if isGlobalSelector r.selector then
          { init with global := r.declarations.foldl (fun m p => jsSet m p.1 p.2) init.global }
        else { init with «scoped» := init.«scoped» ++ [r] }) := by
      unfold partitionRules
      simp only [List.foldl_cons]
    rw [hstep]
    by_cases hsel : isGlobalSelector r.selector
    · obtain ⟨ihs, ihg⟩ := ih ((if isGlobalSelector r.selector then
          { init with global := r.declarations.foldl (fun m p => jsSet m p.1 p.2) init.global }
        else { init with «scoped» := init.«scoped» ++ [r] }))
      constructor
      · rw [ihs]
        simp [hsel, List.filter_cons]
      · rw [ihg]
        simp [hsel, List.filter_cons]
    · obtain ⟨ihs, ihg⟩ := ih ((if isGlobalSelector r.selector then
          { init with global := r.declarations.foldl (fun m p => jsSet m p.1 p.2) init.global }
        else { init with «scoped» := init.«scoped» ++ [r] }))
      constructor
      · rw [ihs]
        simp [hsel, List.filter_cons]
      · rw [ihg]
        simp [hsel, List.filter_cons]

/-- Claim C4 (amended): during extraction a rule that declares at least one
custom property contributes its declarations to the global table if and only
if its trimmed selector is one of `:root`, `::root` (not bare `root`),
`html`, `body`, `svg`, `*`, case-insensitively; every other rule is recorded
as a scoped entry keyed by its (trimmed) selector text, and every recorded
scoped rule declares at least one custom property. -/
theorem claimC4 :
    (∀ sel : List Char, isGlobalSelector sel = true ↔
      sel.map Char.toLower ∈
        [(":root").toList, ("::root").toList, ("html").toList, ("body").toList,
         ("svg").toList, ['*']]) ∧
    (∀ (rules : List CssRule) (init : CssVars),
      (partitionRules rules init).«scoped» =
        init.«scoped» ++ rules.filter (fun r => !(isGlobalSelector r.selector)) ∧
      (partitionRules rules init).global =
        (rules.filter (fun r => isGlobalSelector r.selector)).foldl
          (fun g r => r.declarations.foldl (fun m p => jsSet m p.1 p.2) g) init.global) ∧
    (∀ svg : List Char, ∀ r ∈ (extractCssVars svg).«scoped», r.declarations ≠ []) := by
  refine ⟨?_, fun rules init => partitionRules_spec rules init, ?_⟩
  · intro sel
    simp only [isGlobalSelector, Bool.or_eq_true, beq_iff_eq, List.mem_cons,
      List.not_mem_nil, or_false]
    constructor
    · rintro (((((h | h) | h) | h) | h) | h) <;> simp [h]
    · rintro (h | h | h | h | h | h) <;> simp [h]
  · intro svg r hr
    unfold extractCssVars at hr
    rw [(partitionRules_spec _ _).1] at hr
    have hrf : r ∈ List.filter (fun r => !isGlobalSelector r.selector)
        ((List.map parseCssRules (styleBlockContents svg)).flatten) := by
      simpa using hr
    have hr2 := List.mem_of_mem_filter hrf
    rw [List.mem_flatten] at hr2
    obtain ⟨rs, hrs, hrr⟩ := hr2
    rw [List.mem_map] at hrs
    obtain ⟨content, hcon, rfl⟩ := hrs
    unfold parseCssRules at hrr
    have hne := List.of_mem_filter hrr
    simpa [List.isEmpty_iff] using hne

/-- Witness for C4 (amended): the characterization at `BODY`, the partition
shape at one global and one scoped rule, and a scoped rule of a concrete
document having a declaration. -/
theorem claimC4_witness :
    (isGlobalSelector (("BODY").toList) = true ↔
      (("BODY").toList).map Char.toLower ∈
        [(":root").toList, ("::root").toList, ("html").toList, ("body").toList,
         ("svg").toList, ['*']]) ∧
    ((partitionRules [⟨(":root").toList, [("--bg", "#fff")]⟩,
          ⟨(".dark").toList, [("--bg", "#000")]⟩] ⟨[], [], []⟩).«scoped» =
        [] ++ (([⟨(":root").toList, [("--bg", "#fff")]⟩,
          ⟨(".dark").toList, [("--bg", "#000")]⟩] : List CssRule).filter
            (fun r => !(isGlobalSelector r.selector))) ∧
      (partitionRules [⟨(":root").toList, [("--bg", "#fff")]⟩,
          ⟨(".dark").toList, [("--bg", "#000")]⟩] ⟨[], [], []⟩).global =
        (([⟨(":root").toList, [("--bg", "#fff")]⟩,
          ⟨(".dark").toList, [("--bg", "#000")]⟩] : List CssRule).filter
            (fun r => isGlobalSelector r.selector)).foldl
          (fun g r => r.declarations.foldl (fun m p => jsSet m p.1 p.2) g) []) ∧
    ((⟨(".dark").toList, [("--bg", "#000")]⟩ : CssRule) ∈
        (extractCssVars (("<style>.dark\x7b--bg:#000\x7d</style>").toList)).«scoped» ∧
      (⟨(".dark").toList, [("--bg", "#000")]⟩ : CssRule).declarations ≠ []) :=
  ⟨claimC4.1 (("BODY").toList),
   claimC4.2.1 ([⟨(":root").toList, [("--bg", "#fff")]⟩,
     ⟨(".dark").toList, [("--bg", "#000")]⟩] : List CssRule) ⟨[], [], []⟩,
   by decide,
   claimC4.2.2 (("<style>.dark\x7b--bg:#000\x7d</style>").toList)
     ⟨(".dark").toList, [("--bg", "#000")]⟩ (by decide)⟩

/-! ### Claim C2: the substitution pass -/

/-- `dropLit` on a literal prefix succeeds and returns the tail. -/
theorem dropLit_self_append : ∀ (xs ys : List Char), dropLit xs (xs ++ ys) = some ys := by
  intro xs
  induction xs with
  | nil => intro ys; rfl
  | cons c cs ih =>
    intro ys
    simp only [List.cons_append, dropLit, if_pos rfl]
    exact ih ys

/-- A successful `dropLit` decomposes its input. -/
theorem dropLit_some_append : ∀ (lit s t : List Char), dropLit lit s = some t →
    s = lit ++ t := by
  intro lit
  induction lit with
  | nil =>
    intro s t h
    simp only [dropLit, Option.some.injEq] at h
    simp [h]
  | cons c cs ih =>
    intro s t h
    cases s with
    | nil => exact absurd h (by simp [dropLit])
    | cons x xs =>
      simp only [dropLit] at h
      split at h
      · rename_i hx
        rw [List.cons_append, hx, ih xs t h]
      · exact absurd h (by simp)

/-- If two literals diverge within their common length, `dropLit` of the first
fails on the second followed by anything. -/
theorem dropLit_divergeB : ∀ (lit pre : List Char), divergeB lit pre = true →
    ∀ T, dropLit lit (pre ++ T) = none := by
  intro lit
  induction lit with
  | nil => intro pre h; simp [divergeB] at h
  | cons c cs ih =>
    intro pre h T
    cases pre with
    | nil => simp [divergeB] at h
    | cons x xs =>
      simp only [divergeB] at h
      simp only [List.cons_append, dropLit]
      by_cases hx : x = c
      · rw [if_pos hx]
        rw [if_pos hx] at h
        exact ih xs h T
      · rw [if_neg hx]

/-- `matchAfterName` fails whenever the head character is not whitespace, not
a comma and not a closing parenthesis. -/
theorem matchAfterName_other {c : Char} (rest : List Char)
    (h1 : isWs c = false) (h2 : c ≠ ',') (h3 : c ≠ ')') :
    matchAfterName (c :: rest) = none := by
  have hd : (c :: rest).dropWhile isWs = c :: rest := by
    simp [List.dropWhile_cons, h1]
  simp only [matchAfterName, hd, List.head?_cons]
  rw [if_neg (fun hc => h2 (Option.some.inj hc)),
    if_neg (fun hc => h3 (Option.some.inj hc))]

/-- `matchAfterName` on a direct `)` succeeds when the lookahead passes. -/
theorem matchAfterName_close {s : List Char} (h : closesBeforeOpen s = false) :
    matchAfterName (')' :: s) = some s := by
  show (if closesBeforeOpen s then none else some s) = some s
  rw [h]
  rfl

/-- `matchAfterName` on a comma delegates to the lazy fallback scan. -/
theorem matchAfterName_comma {t s : List Char} (h : fallbackScan t = some s) :
    matchAfterName (',' :: t) = some s := h

/-- The fallback scan skips any run of characters free of `)`. -/
theorem fallbackScan_skip : ∀ (f rest : List Char), ')' ∉ f →
    fallbackScan (f ++ rest) = fallbackScan rest := by
  intro f
  induction f with
  | nil => intro rest _; rfl
  | cons c cs ih =>
    intro rest hne
    have hc : ¬(c = ')') := fun hcc => hne (hcc ▸ List.mem_cons_self _ _)
    simp only [List.cons_append, fallbackScan]
    rw [if_neg hc]
    exact ih rest (fun hm => hne (List.mem_cons_of_mem _ hm))

/-- The fallback scan accepts the first `)` whose lookahead passes. -/
theorem fallbackScan_close {s : List Char} (h : closesBeforeOpen s = false) :
    fallbackScan (')' :: s) = some s := by
  show (if closesBeforeOpen s then fallbackScan s else some s) = some s
  rw [h]
  rfl

/-- The fallback scan backtracks past a `)` that is immediately followed by
another `)` (the lookahead `(?![^(]*\))` fails there). -/
theorem fallbackScan_close_pair (s : List Char) :
    fallbackScan (')' :: ')' :: s) = fallbackScan (')' :: s) := rfl

/-- The fallback scan ignores an opening parenthesis. -/
theorem fallbackScan_open (x : List Char) : fallbackScan ('(' :: x) = fallbackScan x := rfl

/-- A skipped alternative at the head of the name list falls through. -/
theorem tryNames_skip_head {m : String} (ns : List String) {n : String}
    (h : skipsName m n = true) (T : List Char) :
    tryNames (m :: ns) (n.toList ++ T) = tryNames ns (n.toList ++ T) := by
  simp only [skipsName, Bool.or_eq_true] at h
  rcases h with h | h
  · simp only [tryNames, dropLit_divergeB m.toList n.toList h T]
  · cases hd : dropLit m.toList n.toList with
    | none => rw [hd] at h; simp at h
    | some d =>
      rw [hd] at h
      cases d with
      | nil => simp at h
      | cons c rest =>
        simp only [Bool.and_eq_true, Bool.not_eq_true', decide_eq_false_iff_not] at h
        obtain ⟨⟨h1, h2⟩, h3⟩ := h
        have hdec : n.toList = m.toList ++ (c :: rest) := dropLit_some_append _ _ _ hd
        have hd2 : dropLit m.toList (n.toList ++ T) = some (c :: (rest ++ T)) := by
          rw [hdec, List.append_assoc]
          exact dropLit_self_append _ _
        simp only [tryNames, hd2, matchAfterName_other (rest ++ T) h1 h2 h3]

/-- The matching alternative at the head of the name list wins. -/
theorem tryNames_hit_head (n : String) (ns : List String) {T s : List Char}
    (hT : matchAfterName T = some s) :
    tryNames (n :: ns) (n.toList ++ T) = some (n, s) := by
  simp only [tryNames, dropLit_self_append, hT]

/-- Resolution of the name alternation: if `namesResolve l n` holds and the
continuation after `n` matches, `tryNames` returns exactly `n`. -/
theorem tryNames_resolve : ∀ (l : List String) (n : String), namesResolve l n = true →
    ∀ (T s : List Char), matchAfterName T = some s →
      tryNames l (n.toList ++ T) = some (n, s) := by
  intro l
  induction l with
  | nil => intro n h; simp [namesResolve] at h
  | cons m ms ih =>
    intro n h T s hT
    by_cases hmn : m = n
    · subst hmn
      exact tryNames_hit_head m ms hT
    · simp only [namesResolve, if_neg hmn, Bool.and_eq_true] at h
      rw [tryNames_skip_head ms h.1 T]
      exact ih n h.2 T s hT

/-- Every palette slot name resolves through the alternation. -/
theorem namesResolve_all : ∀ n ∈ computedNames, namesResolve computedNames n = true := by
  decide

/-- A head match of the substitution regex, assembled from a name resolution. -/
theorem tryVarMatch_head (vals : List (String × String)) {n : String}
    {X s : List Char} (htn : tryNames computedNames X = some (n, s)) :
    tryVarMatch vals (("var(").toList ++ X) =
      some (((lookupStr vals n).getD "").toList, s) := by
  simp only [tryVarMatch, dropLit_self_append, htn]

/-- **C2.** Corrected statement of the substitution pass.  For every palette
value table and every slot name `n` of the 19 computed names: (1) a bare
occurrence `var(n)` is replaced by the table value, the whole expression
consumed, provided the following text does not close a parenthesis before
opening one (the negative lookahead of the source regex); (2) likewise
`var(n, f)` for a fallback `f` free of `)`, the fallback fully discarded;
(3) likewise `var(n, a(b))` for a fallback with one nested parenthesis group,
`a` and `b` free of `)`; and (4) wherever the regex matches nowhere (in
particular at `var()` references to non-palette names), the text is returned
character-for-character unchanged. -/
theorem claimC2 :
    (∀ vals n s, n ∈ computedNames → closesBeforeOpen s = false →
      substScan vals (("var(").toList ++ (n.toList ++ (')' :: s))) =
        ((lookupStr vals n).getD "").toList ++ substScan vals s) ∧
    (∀ vals n f s, n ∈ computedNames → ')' ∉ f → closesBeforeOpen s = false →
      substScan vals (("var(").toList ++ (n.toList ++ (',' :: (f ++ (')' :: s))))) =
        ((lookupStr vals n).getD "").toList ++ substScan vals s) ∧
    (∀ vals n a b s, n ∈ computedNames → ')' ∉ a → ')' ∉ b →
      closesBeforeOpen s = false →
      substScan vals
          (("var(").toList ++
            (n.toList ++ (',' :: (a ++ ('(' :: (b ++ (')' :: (')' :: s)))))))) =
        ((lookupStr vals n).getD "").toList ++ substScan vals s) ∧
    (∀ vals s, (∀ t ∈ s.tails, tryVarMatch vals t = none) → substScan vals s = s) := by
  refine ⟨?_, ?_, ?_, ?_⟩
  · intro vals n s hn hcb
    have hT : matchAfterName (')' :: s) = some s := matchAfterName_close hcb
    have htn := tryNames_resolve computedNames n (namesResolve_all n hn) _ _ hT
    exact runScan_match (scanStep_tryVarMatch vals) (tryVarMatch_head vals htn)
  · intro vals n f s hn hf hcb
    have hfs : fallbackScan (f ++ (')' :: s)) = some s := by
      rw [fallbackScan_skip f _ hf]
      exact fallbackScan_close hcb
    have hT : matchAfterName (',' :: (f ++ (')' :: s))) = some s :=
      matchAfterName_comma hfs
    have htn := tryNames_resolve computedNames n (namesResolve_all n hn) _ _ hT
    exact runScan_match (scanStep_tryVarMatch vals) (tryVarMatch_head vals htn)
  · intro vals n a b s hn ha hb hcb
    have hfs : fallbackScan (a ++ ('(' :: (b ++ (')' :: (')' :: s))))) = some s := by
      rw [fallbackScan_skip a _ ha, fallbackScan_open,
        fallbackScan_skip b _ hb, fallbackScan_close_pair]
      exact fallbackScan_close hcb
    have hT := matchAfterName_comma hfs
    have htn := tryNames_resolve computedNames n (namesResolve_all n hn) _ _ hT
    exact runScan_match (scanStep_tryVarMatch vals) (tryVarMatch_head vals htn)
  · intro vals s hall
    exact runScan_id hall

/-- Counterexample to C2 as stated: with the default palette, `--bg` is a
resolved slot name, yet in `var(--bg))` the reference is not replaced at all
(no replacement, no consumed fallback): the negative lookahead `(?![^(]*\))`
sees the extra trailing `)` and blocks the match, so the text survives
character-for-character. -/
theorem claimC2_counterexample :
    "--bg" ∈ computedNames ∧
    lookupStr (computePalette ⟨[], [], []⟩ []) "--bg" = some "#FFFFFF" ∧
    substScan (computePalette ⟨[], [], []⟩ []) (("var(--bg))").toList) =
      ("var(--bg))").toList := by
  refine ⟨by decide, by decide, by decide⟩

/-- Witness for C2 at a concrete input: `var(--fg,rgb(0,0,0)) x` with the
default palette becomes `#27272A x` (nested-parenthesis fallback discarded). -/
theorem claimC2_witness :
    substScan (computePalette ⟨[], [], []⟩ []) (("var(--fg,rgb(0,0,0)) x").toList) =
      ("#27272A x").toList := by
  have h := claimC2.2.2.1 (computePalette ⟨[], [], []⟩ []) "--fg" (("rgb").toList)
    (("0,0,0").toList) ((" x").toList) (by decide) (by decide) (by decide) (by decide)
  have e1 : ("var(--fg,rgb(0,0,0)) x").toList =
      ("var(").toList ++ (("--fg").toList ++ ',' :: (("rgb").toList ++
        '(' :: (("0,0,0").toList ++ ')' :: ')' :: (" x").toList))) := by decide
  rw [e1, h]
  decide

/-! ### Claim C5: the attribute-cleanup pass -/

/-- Splitting a predicate-true run followed by a failing character. -/
theorem takeWhile_append_all {p : Char → Bool} : ∀ (v : List Char) (d : Char)
    (rest : List Char), (∀ c ∈ v, p c = true) → p d = false →
    (v ++ d :: rest).takeWhile p = v ∧ (v ++ d :: rest).dropWhile p = d :: rest := by
  intro v
  induction v with
  | nil =>
    intro d rest _ hd
    exact ⟨by simp [List.takeWhile_cons, hd], by simp [List.dropWhile_cons, hd]⟩
  | cons c cs ih =>
    intro d rest hall hd
    have hc : p c = true := hall c (List.mem_cons_self _ _)
    obtain ⟨ht, hdr⟩ := ih d rest (fun x hx => hall x (List.mem_cons_of_mem _ hx)) hd
    exact ⟨by simp [List.takeWhile_cons, hc, ht], by simp [List.dropWhile_cons, hc, hdr]⟩

/-- The style-attribute regex matches at the head of
`style=` + quote + value + quote, capturing the quote and the value, when the
value contains neither quote character. -/
theorem matchStyleAttr_head {q : Char} {v rest : List Char}
    (hq : q = '"' ∨ q = sq) (hv : ∀ c ∈ v, c ≠ '"' ∧ c ≠ sq) :
    matchStyleAttr (("style=").toList ++ q :: (v ++ q :: rest)) = some (q, v, rest) := by
  have hpred : ∀ c ∈ v, (c != '"' && c != sq) = true := by
    intro c hc
    obtain ⟨h1, h2⟩ := hv c hc
    simp [h1, h2]
  have hqf : (q != '"' && q != sq) = false := by
    rcases hq with rfl | rfl <;> decide
  obtain ⟨htake, hdrop⟩ := takeWhile_append_all v q rest hpred hqf
  simp only [matchStyleAttr, dropLit_self_append, List.head?_cons, List.tail_cons,
    htake, hdrop]
  rw [if_pos hq]
  simp

/-- The source keep test agrees with the claim's wording. -/
theorem keepDecl_eq_spec (slots : List String) (part : List Char) :
    keepDecl slots part = specKeepDecl slots part := by
  simp only [keepDecl, specKeepDecl]
  split
  · by_cases hp :
      (dropLit ("--".toList) (trimL (part.takeWhile (fun c => c != ':')))).isSome = true
    · rw [if_pos hp, hp, Bool.true_and]
    · have hp2 : (dropLit ("--".toList)
          (trimL (part.takeWhile (fun c => c != ':')))).isSome = false := by
        rw [← Bool.not_eq_true]
        exact hp
      rw [if_neg hp, hp2, Bool.false_and, Bool.not_false]
  · rfl

/-- **C5.** The attribute-cleanup pass: (1) every occurrence of a single- or
double-quoted style attribute (value free of both quote characters) is
replaced, in place, by the cleanup callback's output, with scanning resuming
right after the closing quote; (2) the callback agrees with the claim's
description: split on `;`, trim each part, drop empty parts, keep a
declaration iff its property name does not both start with `--` and equal a
palette slot name, rejoin the kept declarations with `; ` (no trailing
semicolon) inside the original quote character, and remove the whole
attribute (name, `=`, and value) when nothing is kept. -/
theorem claimC5 :
    (∀ replaced q v rest, (q = '"' ∨ q = sq) → (∀ c ∈ v, c ≠ '"' ∧ c ≠ sq) →
      attrScan replaced (("style=").toList ++ q :: (v ++ q :: rest)) =
        cleanStyleAttr replaced q v ++ attrScan replaced rest) ∧
    (∀ replaced q v, cleanStyleAttr replaced q v = specCleanAttr replaced q v) := by
  constructor
  · intro replaced q v rest hq hv
    have hm : tryAttrClean replaced (("style=").toList ++ q :: (v ++ q :: rest)) =
        some (cleanStyleAttr replaced q v, rest) := by
      simp only [tryAttrClean, matchStyleAttr_head hq hv, Option.map_some']
    exact runScan_match (scanStep_tryAttrClean replaced) hm
  · intro replaced q v
    simp only [cleanStyleAttr, specCleanAttr]
    rw [List.filter_congr (fun p _ => keepDecl_eq_spec replaced p)]

/-- Witness for C5 at a concrete input: with `--bg` among the replaced slots,
`style="--bg:#fff; color: red"` is rewritten to `style="color: red"` and the
text after the attribute is preserved. -/
theorem claimC5_witness :
    attrScan ["--bg"] (("style=\x22--bg:#fff; color: red\x22/>").toList) =
      ("style=\x22color: red\x22/>").toList := by
  have h := claimC5.1 ["--bg"] '"' (("--bg:#fff; color: red").toList) (("/>").toList)
    (Or.inl rfl) (by decide)
  have e1 : ("style=\x22--bg:#fff; color: red\x22/>").toList =
      ("style=").toList ++ '"' :: ((("--bg:#fff; color: red").toList) ++
        '"' :: ("/>").toList) := by decide
  rw [e1, h]
  decide

/-! ### Claim C10: the block-cleanup pass -/

/-- `dropLitCI` on a literal prefix succeeds and returns the tail. -/
theorem dropLitCI_self_append : ∀ (xs ys : List Char), dropLitCI xs (xs ++ ys) = some ys := by
  intro xs
  induction xs with
  | nil => intro ys; rfl
  | cons c cs ih =>
    intro ys
    simp only [List.cons_append, dropLitCI, if_pos rfl]
    exact ih ys

/-- The only character whose lower-casing is `<` is `<` itself. -/
theorem toLower_eq_angle {c : Char} (h : c.toLower = '<') : c = '<' := by
  unfold Char.toLower at h
  simp only [] at h
  by_cases hc : c.toNat ≥ 65 ∧ c.toNat ≤ 90
  · rw [if_pos hc] at h
    exfalso
    have hval : (c.toNat + 32).isValidChar := Or.inl (by omega)
    rw [Char.ofNat, dif_pos hval] at h
    have h2 := congrArg Char.toNat h
    have h3 : (Char.ofNatAux (c.toNat + 32) hval).toNat = c.toNat + 32 := rfl
    have h4 : ('<').toNat = 60 := rfl
    omega
  · rw [if_neg hc] at h
    exact h

/-- The case-insensitive search for `</style>` fails at any character other
than `<`. -/
theorem dropLitCI_close_none {c : Char} (X : List Char) (hc : c ≠ '<') :
    dropLitCI (("</style>").toList) (c :: X) = none := by
  show (if c.toLower = ('<').toLower then
      dropLitCI (("/style>").toList) X else none) = none
  rw [if_neg]
  intro hl
  exact hc (toLower_eq_angle hl)

/-- `splitAtClose` finds the first `</style>` after a run of text free of
`<`. -/
theorem splitAtClose_append : ∀ (content rest : List Char), '<' ∉ content →
    splitAtClose (content ++ ((("</style>").toList) ++ rest)) = some (content, rest) := by
  intro content
  induction content with
  | nil => intro rest _; rfl
  | cons c cs ih =>
    intro rest hne
    have hc : c ≠ '<' := fun h => hne (h ▸ List.mem_cons_self _ _)
    have hr := ih rest (fun hm => hne (List.mem_cons_of_mem _ hm))
    have hr2 : splitAtClose (cs.append ((("</style>").toList) ++ rest)) =
        some (cs, rest) := hr
    simp only [List.cons_append, splitAtClose, dropLitCI_close_none _ hc, hr2]

/-- The style-block regex matches at the head of
`<style` + attributes + `>` + content + `</style>`, capturing the content,
when the attribute text contains no `>` and the content no `<`. -/
theorem matchStyleBlock_head {attrs content : List Char} (rest : List Char)
    (ha : ∀ c ∈ attrs, c ≠ '>') (hcontent : '<' ∉ content) :
    matchStyleBlock (("<style").toList ++
        (attrs ++ '>' :: (content ++ ((("</style>").toList) ++ rest)))) =
      some (content, rest) := by
  have hpred : ∀ c ∈ attrs, ((fun c => c != '>') c) = true := by
    intro c hcc
    simp [ha c hcc]
  obtain ⟨-, hdrop⟩ := takeWhile_append_all attrs '>'
    (content ++ ((("</style>").toList) ++ rest)) hpred (by decide)
  simp only [matchStyleBlock, dropLitCI_self_append, hdrop, List.head?_cons,
    List.tail_cons]
  rw [if_true]
  exact splitAtClose_append content rest hcontent

/-- **C10.** Corrected statement of the block-cleanup pass: every style block
(attribute text free of `>`, content free of `<`) is replaced by a bare
`<style>` open tag, the cleaned content and `</style>` — dropping whatever
attributes the original opening tag carried — when the cleaned content still
has a character besides braces and whitespace, and is removed entirely
otherwise; scanning resumes after the closing tag. -/
theorem claimC10 :
    ∀ replaced attrs content rest, (∀ c ∈ attrs, c ≠ '>') → '<' ∉ content →
      blockScan replaced (("<style").toList ++
          (attrs ++ '>' :: (content ++ ((("</style>").toList) ++ rest)))) =
        (if hasRealContent (cleanBlockContent replaced content) then
          ("<style>".toList) ++ cleanBlockContent replaced content ++ ("</style>".toList)
         else []) ++ blockScan replaced rest := by
  intro replaced attrs content rest ha hc
  have hm : tryBlockClean replaced (("<style").toList ++
      (attrs ++ '>' :: (content ++ ((("</style>").toList) ++ rest)))) =
      some ((if hasRealContent (cleanBlockContent replaced content) then
        ("<style>".toList) ++ cleanBlockContent replaced content ++ ("</style>".toList)
       else []), rest) := by
    simp only [tryBlockClean, matchStyleBlock_head rest ha hc, Option.map_some']
  exact runScan_match (scanStep_tryBlockClean replaced) hm

/-- Counterexample to C10 as stated: the style block `<style a>\x7b\x7d</style>`
has cleaned content `\x7b\x7d`, which is non-empty, yet the block is removed
entirely (not re-emitted): the source's emptiness test is
`/[^\x7b\x7d\s]/.test(content)`, i.e. braces-and-whitespace-only content counts
as empty. -/
theorem claimC10_counterexample :
    cleanBlockContent computedNames (("\x7b\x7d").toList) = ("\x7b\x7d").toList ∧
    cleanBlockContent computedNames (("\x7b\x7d").toList) ≠ [] ∧
    blockScan computedNames (("<style a>\x7b\x7d</style>").toList) = [] := by
  refine ⟨by decide, by decide, by decide⟩

/-- Witness for C10 at a concrete input: a style block with a `type` attribute
and real content is re-emitted as a bare `<style>` with the attribute dropped,
and the following text is preserved. -/
theorem claimC10_witness :
    blockScan ["--bg"]
        (("<style type=\x22text/css\x22>.a\x7bcolor:red\x7d</style><rect/>").toList) =
      ("<style>.a\x7bcolor:red\x7d</style><rect/>").toList := by
  have h := claimC10 ["--bg"] ((" type=\x22text/css\x22").toList)
    ((".a\x7bcolor:red\x7d").toList) (("<rect/>").toList) (by decide) (by decide)
  have e1 : ("<style type=\x22text/css\x22>.a\x7bcolor:red\x7d</style><rect/>").toList =
      ("<style").toList ++ (((" type=\x22text/css\x22").toList) ++
        '>' :: (((".a\x7bcolor:red\x7d").toList) ++
          (((("</style>").toList)) ++ (("<rect/>").toList)))) := by decide
  rw [e1, h]
  decide

/-! ### Claim C6: identity on variable-free documents -/

/-- **C6.** Corrected statement: `flattenSvg` returns the document unchanged
whenever the substitution regex matches nowhere (in particular, no `var()`
reference to a palette slot name survives its lookahead), the style-attribute
regex matches nowhere, and the style-block regex matches nowhere.  The latter
two conditions are genuinely needed: cleanup is not a no-op on every matched
attribute or block even without custom properties (see the counterexample). -/
theorem claimC6 :
    ∀ (svg : String) (colors : List (String × String)),
      (∀ t ∈ svg.toList.tails,
        tryVarMatch (computePalette (extractCssVars svg.toList) colors) t = none) →
      (∀ t ∈ svg.toList.tails, matchStyleAttr t = none) →
      (∀ t ∈ svg.toList.tails, matchStyleBlock t = none) →
      flattenSvg svg colors = svg := by
  intro svg colors h1 h2 h3
  have e1 : substScan (computePalette (extractCssVars svg.toList) colors) svg.toList
      = svg.toList := runScan_id h1
  have h2b : ∀ t ∈ svg.toList.tails,
      tryAttrClean ((computePalette (extractCssVars svg.toList) colors).map Prod.fst)
        t = none := by
    intro t ht
    simp only [tryAttrClean, h2 t ht, Option.map_none']
  have h3b : ∀ t ∈ svg.toList.tails,
      tryBlockClean ((computePalette (extractCssVars svg.toList) colors).map Prod.fst)
        t = none := by
    intro t ht
    simp only [tryBlockClean, h3 t ht, Option.map_none']
  show (⟨blockScan ((computePalette (extractCssVars svg.toList) colors).map Prod.fst)
      (attrScan ((computePalette (extractCssVars svg.toList) colors).map Prod.fst)
        (substScan (computePalette (extractCssVars svg.toList) colors)
          svg.toList))⟩ : String) = svg
  rw [e1, show attrScan ((computePalette (extractCssVars svg.toList) colors).map
      Prod.fst) svg.toList = svg.toList from runScan_id h2b,
    show blockScan ((computePalette (extractCssVars svg.toList) colors).map
      Prod.fst) svg.toList = svg.toList from runScan_id h3b]
  rfl

/-- Counterexample to C6 as stated: `<rect style="color: red;"/>` declares no
custom property (extraction finds nothing) and contains no `var()` reference,
yet `flattenSvg` does not return it unchanged: the attribute-cleanup pass
rewrites the style attribute to `style="color: red"` (trailing semicolon and
empty declaration dropped). -/
theorem claimC6_counterexample :
    extractCssVars (("<rect style=\x22color: red;\x22/>").toList) = ⟨[], [], []⟩ ∧
    (∀ t ∈ (("<rect style=\x22color: red;\x22/>").toList).tails,
      tryVarMatch (computePalette ⟨[], [], []⟩ []) t = none) ∧
    flattenSvg ("<rect style=\x22color: red;\x22/>") [] =
      ("<rect style=\x22color: red\x22/>") := by
  refine ⟨by decide, by decide, by decide⟩

/-- Witness for C6 at a concrete input: a document with no style attribute,
no style block and no `var()` reference is returned verbatim. -/
theorem claimC6_witness :
    flattenSvg ("<rect fill=\x22red\x22/>") [] = ("<rect fill=\x22red\x22/>") :=
  claimC6 ("<rect fill=\x22red\x22/>") [] (by decide) (by decide) (by decide)

end SvgUtils
